import Mathlib

/-!
# Verification development for the tui-doist synchronization engine

Shallow embedding of the reconciliation engine of the tui-doist backend:
the Prisma-backed local store (projects, tasks, sync log), the
TodoistService operations `syncProjectsFromTodoist`, `syncTasksFromTodoist`
and `uploadToTodoist` (src/unnamed/part_002), the sync route dispatch
(src/backend/src/routes/sync.ts), the WebSocket trigger/broadcaster
(src/backend/src/services/websocket.ts) and the CRUD route handlers
(src/backend/src/routes/tasks.ts, projects route in the same file group).

Local ids (Prisma cuids) are modelled as naturals handed out by per-table
counters; Todoist ids are strings, as in the source.  Remote API calls are
an oracle record of functions returning `Except String`, so a per-entity
remote failure is an `Except.error` carrying the message the catch block
would read from the thrown error.
-/

namespace TuiDoist

/-- The `syncStatus` values used by the prisma schema and the service. -/
inductive SyncStatus
  | SYNCED
  | PENDING_UPLOAD
  | ERROR
deriving DecidableEq, Repr

/-- A row of the `projects` table (fields the sync engine reads/writes). -/
structure Project where
  id : Nat
  name : String
  color : String
  todoistId : Option String
  syncStatus : SyncStatus
deriving DecidableEq, Repr

/-- A row of the `tasks` table (fields the sync engine reads/writes). -/
structure Task where
  id : Nat
  text : String
  completed : Bool
  priority : Int
  notes : String
  dueDate : Option String
  projectId : Nat
  todoistId : Option String
  syncStatus : SyncStatus
deriving DecidableEq, Repr

/-- A row of the `sync_logs` table, as written by `TodoistService.logSync`. -/
structure SyncLogEntry where
  entityType : String
  entityId : Nat
  action : String
  direction : String
  todoistId : Option String
  errorMessage : Option String
deriving DecidableEq, Repr

/-- The local store: the two entity tables, the append-only sync log, and
the id counters standing for Prisma's id generation. -/
structure Store where
  projects : List Project
  tasks : List Task
  syncLog : List SyncLogEntry
  nextProjectId : Nat
  nextTaskId : Nat
deriving DecidableEq, Repr

/-- Payload sent to the Todoist task create/update endpoints
(`taskData` in `uploadToTodoist`). -/
structure TaskPayload where
  content : String
  projectId : String
  description : String
  priority : Int
  dueDate : Option String
deriving DecidableEq, Repr

/-- The Todoist API client as consumed by `TodoistService`:
each call either succeeds or fails with an error message. -/
structure TodoistApi where
  updateProject : String → String → Except String Unit
  addProject : String → Except String String
  updateTask : String → TaskPayload → Except String Unit
  addTask : TaskPayload → Except String String
  closeTask : String → Except String Unit
  reopenTask : String → Except String Unit

/-- Remote project as returned by `api.getProjects()`. -/
structure RemoteProject where
  id : String
  name : String
  color : String
deriving DecidableEq, Repr

/-- Remote task as returned by `api.getTasks()`
(`dueDatetime` models `todoistTask.due?.datetime`). -/
structure RemoteTask where
  id : String
  content : String
  isCompleted : Bool
  priority : Int
  description : String
  dueDatetime : Option String
  projectId : String
deriving DecidableEq, Repr

/-- One entry of the `results` array built by the sync operations.  Push
results are `{type, action: uploaded|error, id, error}`; pull results are
`{action: created|updated, entity}` — both are flattened to the fields a
caller actually reads (the `action` filters, the entity kind and id). -/
structure SyncResult where
  typ : String
  action : String
  entityId : Nat
  errMsg : Option String
deriving DecidableEq, Repr

/-! ## Store helpers (the Prisma operations the service uses) -/

/-- Models `prisma.project.update({ where: { id }, data })`: rewrite the rows
whose `id` matches. -/
def updProject (s : Store) (i : Nat) (f : Project → Project) : Store :=
  { s with projects := s.projects.map fun p => if p.id == i then f p else p }

/-- Models `prisma.task.update({ where: { id }, data })`. -/
def updTaskById (s : Store) (i : Nat) (f : Task → Task) : Store :=
  { s with tasks := s.tasks.map fun t => if t.id == i then f t else t }

/-- Models `prisma.syncLog.create`: append one audit row. -/
def addLog (s : Store) (e : SyncLogEntry) : Store :=
  { s with syncLog := s.syncLog ++ [e] }

/-- Models `prisma.project.findUnique({ where: { id } })`. -/
def getProject (s : Store) (i : Nat) : Option Project :=
  s.projects.find? fun p => p.id == i

/-- Models `prisma.task.findUnique({ where: { id } })`. -/
def getTask (s : Store) (i : Nat) : Option Task :=
  s.tasks.find? fun t => t.id == i

/-- Models `prisma.project.findUnique({ where: { todoistId } })`. -/
def findProjectByTodoistId (s : Store) (tid : String) : Option Project :=
  s.projects.find? fun p => p.todoistId == some tid

/-- Models `prisma.task.findUnique({ where: { todoistId } })`. -/
def findTaskByTodoistId (s : Store) (tid : String) : Option Task :=
  s.tasks.find? fun t => t.todoistId == some tid

/-- The `findMany({ where: { syncStatus: PENDING_UPLOAD } })` scan over
projects at the start of `uploadToTodoist`. -/
def pendingProjects (s : Store) : List Project :=
  s.projects.filter fun p => p.syncStatus == .PENDING_UPLOAD

/-- The pending-task scan of `uploadToTodoist`, with the
`include: { project: true }` join resolved at query time. -/
def pendingTaskSnapshot (s : Store) : List (Task × Option Project) :=
  (s.tasks.filter fun t => t.syncStatus == .PENDING_UPLOAD).map
    fun t => (t, getProject s t.projectId)

/-! ## Mappers (`mapTodoistColor`, priority maps) -/

/-- Models `TodoistService.mapTodoistColor`: table lookup with fallback `blue`.
Legacy numeric codes arrive stringified (`todoistColor.toString()`). -/
def mapTodoistColor (c : String) : String :=
  if c == "berry_red" then "red"
  else if c == "red" then "red"
  else if c == "orange" then "orange"
  else if c == "yellow" then "yellow"
  else if c == "olive_green" then "green"
  else if c == "green" then "green"
  else if c == "teal" then "blue"
  else if c == "blue" then "blue"
  else if c == "purple" then "purple"
  else if c == "pink" then "purple"
  else if c == "brown" then "gray"
  else if c == "gray" then "gray"
  else if c == "charcoal" then "gray"
  else if c == "grey" then "gray"
  else if c == "30" then "red"
  else if c == "31" then "orange"
  else if c == "32" then "yellow"
  else if c == "33" then "green"
  else if c == "34" then "blue"
  else if c == "35" then "purple"
  else if c == "36" then "pink"
  else if c == "37" then "brown"
  else if c == "38" then "gray"
  else if c == "39" then "gray"
  else "blue"

/-- Models `TodoistService.mapTodoistPriority`: Todoist priority to local. -/
def mapTodoistPriority (p : Int) : Int := 5 - p

/-- Models `TodoistService.mapToTodoistPriority`: local priority to Todoist. -/
def mapToTodoistPriority (p : Int) : Int := 5 - p

/-- Models `toISOString().split('T')[0]` applied to a stored datetime string. -/
def dateOnly (s : String) : String := (s.splitOn "T").headD s

/-- The `taskData` object built in the task loop of `uploadToTodoist`. -/
def taskPayloadOf (t : Task) (projTid : String) : TaskPayload :=
  { content := t.text
    projectId := projTid
    description := t.notes
    priority := mapToTodoistPriority t.priority
    dueDate := t.dueDate.map dateOnly }

/-! ## `uploadToTodoist` (push) -/

/-- Loop body of the pending-projects loop of `uploadToTodoist`: update or
create remotely, record log and status, isolate failures in the catch. -/
def pushProjectStep (api : TodoistApi) (acc : Store × List SyncResult) (p : Project) :
    Store × List SyncResult :=
  match p.todoistId with
  | some tid =>
    match api.updateProject tid p.name with
    | .ok _ =>
      let s1 := addLog acc.1 ⟨"project", p.id, "UPDATE", "TO_TODOIST", some tid, none⟩
      let s2 := updProject s1 p.id fun q => { q with syncStatus := .SYNCED }
      (s2, acc.2 ++ [⟨"project", "uploaded", p.id, none⟩])
    | .error e =>
      let s1 := updProject acc.1 p.id fun q => { q with syncStatus := .ERROR }
      let s2 := addLog s1 ⟨"project", p.id, "UPDATE", "TO_TODOIST", none, some e⟩
      (s2, acc.2 ++ [⟨"project", "error", p.id, some e⟩])
  | none =>
    match api.addProject p.name with
    | .ok rid =>
      let s1 := updProject acc.1 p.id fun q =>
        { q with todoistId := some rid, syncStatus := .SYNCED }
      let s2 := addLog s1 ⟨"project", p.id, "CREATE", "TO_TODOIST", some rid, none⟩
      let s3 := updProject s2 p.id fun q => { q with syncStatus := .SYNCED }
      (s3, acc.2 ++ [⟨"project", "uploaded", p.id, none⟩])
    | .error e =>
      let s1 := updProject acc.1 p.id fun q => { q with syncStatus := .ERROR }
      let s2 := addLog s1 ⟨"project", p.id, "UPDATE", "TO_TODOIST", none, some e⟩
      (s2, acc.2 ++ [⟨"project", "error", p.id, some e⟩])

/-- The pending-projects loop of `uploadToTodoist`. -/
def pushProjectsPhase (s : Store) (api : TodoistApi) : Store × List SyncResult :=
  (pendingProjects s).foldl (pushProjectStep api) (s, [])

/-- The remote calls the task loop body issues for one pending task whose
project carries Todoist id `ptid`: content update plus the separate
close/reopen call, or a create returning the fresh remote id. -/
def taskRemoteCall (api : TodoistApi) (t : Task) (ptid : String) :
    Except String (Option String) :=
  match t.todoistId with
  | some ttid =>
    match api.updateTask ttid (taskPayloadOf t ptid) with
    | .error e => .error e
    | .ok _ =>
      match (if t.completed then api.closeTask ttid else api.reopenTask ttid) with
      | .error e => .error e
      | .ok _ => .ok none
  | none => (api.addTask (taskPayloadOf t ptid)).map some

/-- Loop body of the pending-tasks loop of `uploadToTodoist`.  The skip
guard is `if (!task.project.todoistId) continue`; a missing joined project
cannot occur (required FK) and is modelled as the same skip. -/
def pushTaskStep (api : TodoistApi) (acc : Store × List SyncResult)
    (tp : Task × Option Project) : Store × List SyncResult :=
  match tp.2 with
  | none => acc
  | some proj =>
    match proj.todoistId with
    | none => acc
    | some ptid =>
      let t := tp.1
      match t.todoistId with
      | some ttid =>
        match taskRemoteCall api t ptid with
        | .ok _ =>
          let s1 := addLog acc.1 ⟨"task", t.id, "UPDATE", "TO_TODOIST", some ttid, none⟩
          let s2 := updTaskById s1 t.id fun q => { q with syncStatus := .SYNCED }
          (s2, acc.2 ++ [⟨"task", "uploaded", t.id, none⟩])
        | .error e =>
          let s1 := updTaskById acc.1 t.id fun q => { q with syncStatus := .ERROR }
          let s2 := addLog s1 ⟨"task", t.id, "UPDATE", "TO_TODOIST", none, some e⟩
          (s2, acc.2 ++ [⟨"task", "error", t.id, some e⟩])
      | none =>
        match api.addTask (taskPayloadOf t ptid) with
        | .ok rid =>
          let s1 := updTaskById acc.1 t.id fun q =>
            { q with todoistId := some rid, syncStatus := .SYNCED }
          let s2 := addLog s1 ⟨"task", t.id, "CREATE", "TO_TODOIST", some rid, none⟩
          let s3 := updTaskById s2 t.id fun q => { q with syncStatus := .SYNCED }
          (s3, acc.2 ++ [⟨"task", "uploaded", t.id, none⟩])
        | .error e =>
          let s1 := updTaskById acc.1 t.id fun q => { q with syncStatus := .ERROR }
          let s2 := addLog s1 ⟨"task", t.id, "UPDATE", "TO_TODOIST", none, some e⟩
          (s2, acc.2 ++ [⟨"task", "error", t.id, some e⟩])

/-- The pending-tasks loop of `uploadToTodoist`, run on the snapshot taken
after the projects loop has finished. -/
def pushTasksPhase (s : Store) (api : TodoistApi) : Store × List SyncResult :=
  (pendingTaskSnapshot s).foldl (pushTaskStep api) (s, [])

/-- Models `TodoistService.uploadToTodoist`: pending projects first, then pending
tasks, one result per attempted entity. -/
def uploadToTodoist (s : Store) (api : TodoistApi) : Store × List SyncResult :=
  let pr := pushProjectsPhase s api
  let tr := pushTasksPhase pr.1 api
  (tr.1, pr.2 ++ tr.2)

/-! ## Pull (`syncProjectsFromTodoist`, `syncTasksFromTodoist`) -/

/-- Shape of the value returned by `api.getProjects()`: a bare array, the
new enveloped form with a `results` array, or anything else (which the
service rejects with a thrown error). -/
inductive ProjectsResponse
  | arr (results : List RemoteProject)
  | envelope (results : List RemoteProject)
  | invalid (typeName : String)

/-- The envelope handling at the top of `syncProjectsFromTodoist`. -/
def decodeProjects : ProjectsResponse → Except String (List RemoteProject)
  | .arr l => .ok l
  | .envelope l => .ok l
  | .invalid t =>
      .error ("Invalid response from Todoist API: expected array or object with results array, got " ++ t)

/-- Shape of the value returned by `api.getTasks()`: a bare array, an
object whose `results` field is an array or missing (then `[]` is used),
an object whose `results` field is some non-array value, or a primitive
(then the array stays `[]`). -/
inductive TasksResponse
  | arr (results : List RemoteTask)
  | objResults (results : Option (List RemoteTask))
  | objBadResults (typeName : String)
  | primitive

/-- The response handling at the top of `syncTasksFromTodoist`. -/
def decodeTasks : TasksResponse → Except String (List RemoteTask)
  | .arr l => .ok l
  | .objResults l => .ok (l.getD [])
  | .objBadResults t =>
      .error ("Invalid tasks response from Todoist API: expected array, got " ++ t)
  | .primitive => .ok []

/-- Loop body of `syncProjectsFromTodoist`: update the local project found
by `todoistId`, or create a fresh one with the mapped color. -/
def pullProjectStep (acc : Store × List SyncResult) (rp : RemoteProject) :
    Store × List SyncResult :=
  match findProjectByTodoistId acc.1 rp.id with
  | some existing =>
    let s1 := updProject acc.1 existing.id fun q =>
      { q with name := rp.name, syncStatus := .SYNCED }
    let s2 := addLog s1 ⟨"project", existing.id, "UPDATE", "FROM_TODOIST", some rp.id, none⟩
    (s2, acc.2 ++ [⟨"project", "updated", existing.id, none⟩])
  | none =>
    let pid := acc.1.nextProjectId
    let newProj : Project := ⟨pid, rp.name, mapTodoistColor rp.color, some rp.id, .SYNCED⟩
    let s1 := { acc.1 with
      projects := acc.1.projects ++ [newProj]
      nextProjectId := pid + 1 }
    let s2 := addLog s1 ⟨"project", pid, "CREATE", "FROM_TODOIST", some rp.id, none⟩
    (s2, acc.2 ++ [⟨"project", "created", pid, none⟩])

/-- The project loop of `syncProjectsFromTodoist` on a decoded listing. -/
def pullProjectsList (s : Store) (rl : List RemoteProject) : Store × List SyncResult :=
  rl.foldl pullProjectStep (s, [])

/-- Models `TodoistService.syncProjectsFromTodoist`. -/
def syncProjectsFromTodoist (s : Store) (resp : ProjectsResponse) :
    Except String (Store × List SyncResult) :=
  (decodeProjects resp).map fun rl => pullProjectsList s rl

/-- The local fields written for a pulled remote task (`taskData` in
`syncTasksFromTodoist`), targeting local project `pid`. -/
def pulledTaskData (rt : RemoteTask) (pid : Nat) (q : Task) : Task :=
  { q with
    text := rt.content
    completed := rt.isCompleted
    priority := mapTodoistPriority rt.priority
    notes := rt.description
    dueDate := rt.dueDatetime
    projectId := pid }

/-- Loop body of `syncTasksFromTodoist`: skip (with only a console
warning) when the owning project is unknown locally, otherwise
create-or-update by `todoistId`. -/
def pullTaskStep (acc : Store × List SyncResult) (rt : RemoteTask) :
    Store × List SyncResult :=
  match findProjectByTodoistId acc.1 rt.projectId with
  | none => acc
  | some proj =>
    match findTaskByTodoistId acc.1 rt.id with
    | some existing =>
      let s1 := updTaskById acc.1 existing.id fun q =>
        { pulledTaskData rt proj.id q with syncStatus := .SYNCED }
      let s2 := addLog s1 ⟨"task", existing.id, "UPDATE", "FROM_TODOIST", some rt.id, none⟩
      (s2, acc.2 ++ [⟨"task", "updated", existing.id, none⟩])
    | none =>
      let tid := acc.1.nextTaskId
      let newTask : Task :=
        pulledTaskData rt proj.id
          ⟨tid, "", false, 0, "", none, proj.id, some rt.id, .SYNCED⟩
      let s1 := { acc.1 with
        tasks := acc.1.tasks ++ [newTask]
        nextTaskId := tid + 1 }
      let s2 := addLog s1 ⟨"task", tid, "CREATE", "FROM_TODOIST", some rt.id, none⟩
      (s2, acc.2 ++ [⟨"task", "created", tid, none⟩])

/-- The task loop of `syncTasksFromTodoist` on a decoded listing. -/
def pullTasksList (s : Store) (rl : List RemoteTask) : Store × List SyncResult :=
  rl.foldl pullTaskStep (s, [])

/-- Models `TodoistService.syncTasksFromTodoist`. -/
def syncTasksFromTodoist (s : Store) (resp : TasksResponse) :
    Except String (Store × List SyncResult) :=
  (decodeTasks resp).map fun rl => pullTasksList s rl

/-! ## `POST /api/sync` dispatch (routes/sync.ts) -/

/-- Sync direction of the request body (`SyncRequestSchema`). -/
inductive Direction
  | FROM_TODOIST
  | TO_TODOIST
  | BIDIRECTIONAL
deriving DecidableEq, Repr

/-- The `entityType` of the request body. -/
inductive EntityKinds
  | projects
  | tasks
  | all
deriving DecidableEq, Repr

/-- Models `entityType === 'projects' || entityType === 'all'`. -/
def wantsProjects : EntityKinds → Bool
  | .projects => true
  | .all => true
  | .tasks => false

/-- Models `entityType === 'tasks' || entityType === 'all'`. -/
def wantsTasks : EntityKinds → Bool
  | .tasks => true
  | .all => true
  | .projects => false

/-- The `summary` object of the sync route response. -/
structure Summary where
  total : Nat
  created : Nat
  updated : Nat
  errors : Nat
deriving DecidableEq, Repr

/-- The `summary` construction from the merged `results` array. -/
def mkSummary (rs : List SyncResult) : Summary :=
  { total := rs.length
    created := (rs.filter fun r => r.action == "created").length
    updated := (rs.filter fun r => r.action == "updated").length
    errors := (rs.filter fun r => r.action == "error").length }

/-- Successful response of the sync route: updated store, merged results,
summary. -/
structure SyncOutcome where
  store : Store
  results : List SyncResult
  summary : Summary
deriving DecidableEq, Repr

/-- The direction dispatch of `POST /api/sync`; a thrown pull error
becomes the 500 `Sync failed` response, modelled as `Except.error`. -/
def reconcile (dir : Direction) (et : EntityKinds) (s : Store) (api : TodoistApi)
    (presp : ProjectsResponse) (tresp : TasksResponse) : Except String SyncOutcome :=
  match dir with
  | .FROM_TODOIST => do
    let a ← if wantsProjects et then syncProjectsFromTodoist s presp else pure (s, [])
    let b ← if wantsTasks et then syncTasksFromTodoist a.1 tresp else pure (a.1, [])
    let rs := a.2 ++ b.2
    pure ⟨b.1, rs, mkSummary rs⟩
  | .TO_TODOIST =>
    let u := uploadToTodoist s api
    .ok ⟨u.1, u.2, mkSummary u.2⟩
  | .BIDIRECTIONAL => do
    let u := uploadToTodoist s api
    let a ← if wantsProjects et then syncProjectsFromTodoist u.1 presp else pure (u.1, [])
    let b ← if wantsTasks et then syncTasksFromTodoist a.1 tresp else pure (a.1, [])
    let rs := u.2 ++ a.2 ++ b.2
    pure ⟨b.1, rs, mkSummary rs⟩

/-! ## WebSocket trigger and broadcaster (services/websocket.ts) -/

/-- One entry of `connectedClients`; `isOpen` models
`readyState === WebSocket.OPEN`, checked by `broadcast` before sending. -/
structure Client where
  id : Nat
  isOpen : Bool
deriving DecidableEq, Repr

/-- The `summary` object of the `AUTO_SYNC_COMPLETED` event. -/
structure AutoSummary where
  total : Nat
  uploaded : Nat
  downloaded : Nat
  errors : Nat
deriving DecidableEq, Repr

/-- Models `results.filter(r => r.action === 'error').length`. -/
def errorCount (rs : List SyncResult) : Nat :=
  (rs.filter fun r => r.action == "error").length

/-- Events emitted by `startAutoSync` (completion or error). -/
inductive WsEvent
  | autoCompleted (results : List SyncResult) (summary : AutoSummary) (timestamp : String)
  | autoError (msg : String) (timestamp : String)
deriving DecidableEq, Repr

/-- Models `SyncWebSocketService.startAutoSync`: push, then pull projects, then
pull tasks; broadcast a completion event, or an error event from the
catch.  `ts` stands for `new Date().toISOString()`. -/
def startAutoSync (s : Store) (api : TodoistApi) (presp : ProjectsResponse)
    (tresp : TasksResponse) (ts : String) : Store × WsEvent :=
  let u := uploadToTodoist s api
  match syncProjectsFromTodoist u.1 presp with
  | .error e => (u.1, .autoError e ts)
  | .ok a =>
    match syncTasksFromTodoist a.1 tresp with
    | .error e => (a.1, .autoError e ts)
    | .ok b =>
      let allR := u.2 ++ a.2 ++ b.2
      (b.1, .autoCompleted allR
        ⟨allR.length, u.2.length, a.2.length + b.2.length, errorCount allR⟩ ts)

/-- Models `SyncWebSocketService.broadcast`: send to every connected client whose
socket is open. -/
def broadcast (clients : List Client) (ev : WsEvent) : List (Nat × WsEvent) :=
  (clients.filter fun c => c.isOpen).map fun c => (c.id, ev)

/-- Models `SyncWebSocketService.triggerSyncOnChange`: no-op without connected
clients, otherwise one `startAutoSync` pass whose event is broadcast. -/
def triggerSyncOnChange (clients : List Client) (s : Store) (api : TodoistApi)
    (presp : ProjectsResponse) (tresp : TasksResponse) (ts : String) :
    Store × List (Nat × WsEvent) :=
  if clients.length > 0 then
    let r := startAutoSync s api presp tresp ts
    (r.1, broadcast clients r.2)
  else (s, [])

/-! ## CRUD route handlers (routes/tasks.ts, projects routes) -/

/-- Outcome of one HTTP mutation handler: resulting store, status code,
and whether the handler invoked `triggerSyncOnChange`
(`(global).syncWebSocketService.triggerSyncOnChange().catch(...)`,
guarded by the service being available). -/
structure HandlerOut where
  store : Store
  statusCode : Nat
  triggered : Bool
deriving Repr

/-- Handler for `POST /api/projects`: create with `syncStatus: PENDING_UPLOAD`, then
fire the trigger when the WebSocket service is available. -/
def projectCreateHandler (s : Store) (ws : Bool) (nameArg colorArg : String) : HandlerOut :=
  let p : Project := ⟨s.nextProjectId, nameArg, colorArg, none, .PENDING_UPLOAD⟩
  ⟨{ s with projects := s.projects ++ [p], nextProjectId := s.nextProjectId + 1 }, 200, ws⟩

/-- Handler for `PUT /api/projects/:id`: 404 when missing, else apply the provided
fields with `syncStatus: PENDING_UPLOAD` and fire the trigger. -/
def projectUpdateHandler (s : Store) (ws : Bool) (i : Nat)
    (nameArg colorArg tidArg : Option String) : HandlerOut :=
  match getProject s i with
  | none => ⟨s, 404, false⟩
  | some _ =>
    ⟨updProject s i fun p =>
      { p with
        name := nameArg.getD p.name
        color := colorArg.getD p.color
        todoistId := match tidArg with | some v => some v | none => p.todoistId
        syncStatus := .PENDING_UPLOAD }, 200, ws⟩

/-- Handler for `DELETE /api/projects/:id`: 404 when missing, else delete (tasks
cascade via the FK); this handler contains no trigger call. -/
def projectDeleteHandler (s : Store) (_ws : Bool) (i : Nat) : HandlerOut :=
  match getProject s i with
  | none => ⟨s, 404, false⟩
  | some _ =>
    ⟨{ s with
        projects := s.projects.filter fun p => ¬ p.id == i
        tasks := s.tasks.filter fun t => ¬ t.projectId == i }, 200, false⟩

/-- Handler for `POST /api/tasks`: 404 when the project is missing, else create with
`syncStatus: PENDING_UPLOAD` and fire the trigger. -/
def taskCreateHandler (s : Store) (ws : Bool) (textArg : String) (projArg : Nat)
    (prioArg : Int) (notesArg : String) (dueArg : Option String) : HandlerOut :=
  match getProject s projArg with
  | none => ⟨s, 404, false⟩
  | some _ =>
    let t : Task :=
      ⟨s.nextTaskId, textArg, false, prioArg, notesArg, dueArg, projArg, none, .PENDING_UPLOAD⟩
    ⟨{ s with tasks := s.tasks ++ [t], nextTaskId := s.nextTaskId + 1 }, 200, ws⟩

/-- Handler for `PUT /api/tasks/:id`: 404 when missing, else apply provided fields
with `syncStatus: PENDING_UPLOAD` and fire the trigger. -/
def taskUpdateHandler (s : Store) (ws : Bool) (i : Nat) (textArg : Option String)
    (completedArg : Option Bool) (prioArg : Option Int) (notesArg : Option String)
    (dueArg : Option String) : HandlerOut :=
  match getTask s i with
  | none => ⟨s, 404, false⟩
  | some _ =>
    ⟨updTaskById s i fun t =>
      { t with
        text := textArg.getD t.text
        completed := completedArg.getD t.completed
        priority := prioArg.getD t.priority
        notes := notesArg.getD t.notes
        dueDate := match dueArg with | some v => some v | none => t.dueDate
        syncStatus := .PENDING_UPLOAD }, 200, ws⟩

/-- Handler for `PATCH /api/tasks/:id/toggle`: 404 when missing, else flip
`completed`, mark `PENDING_UPLOAD`, and fire the trigger. -/
def taskToggleHandler (s : Store) (ws : Bool) (i : Nat) : HandlerOut :=
  match getTask s i with
  | none => ⟨s, 404, false⟩
  | some existing =>
    ⟨updTaskById s i fun t =>
      { t with completed := !existing.completed, syncStatus := .PENDING_UPLOAD }, 200, ws⟩

/-- Handler for `DELETE /api/tasks/:id`: 404 when missing, else delete and fire the
trigger. -/
def taskDeleteHandler (s : Store) (ws : Bool) (i : Nat) : HandlerOut :=
  match getTask s i with
  | none => ⟨s, 404, false⟩
  | some _ => ⟨{ s with tasks := s.tasks.filter fun t => ¬ t.id == i }, 200, ws⟩

/-! ## Characterizations used by the theorems -/

/-- The remote call the project loop issues for `p`: `updateProject` when
a Todoist id is present, else `addProject` (yielding the new id). -/
def projRemoteCall (api : TodoistApi) (p : Project) : Except String (Option String) :=
  match p.todoistId with
  | some tid => (api.updateProject tid p.name).map fun _ => none
  | none => (api.addProject p.name).map some

/-- The result record the project loop appends for `p`. -/
def projResult (api : TodoistApi) (p : Project) : SyncResult :=
  match projRemoteCall api p with
  | .ok _ => ⟨"project", "uploaded", p.id, none⟩
  | .error e => ⟨"project", "error", p.id, some e⟩

/-- The row rewrite the project loop applies to `p`'s row. -/
def projAfter (api : TodoistApi) (p : Project) (q : Project) : Project :=
  match projRemoteCall api p with
  | .error _ => { q with syncStatus := .ERROR }
  | .ok none => { q with syncStatus := .SYNCED }
  | .ok (some rid) => { q with todoistId := some rid, syncStatus := .SYNCED }

/-- The audit row the project loop writes for `p`. -/
def projLogEntry (api : TodoistApi) (p : Project) : SyncLogEntry :=
  match projRemoteCall api p with
  | .error e => ⟨"project", p.id, "UPDATE", "TO_TODOIST", none, some e⟩
  | .ok none => ⟨"project", p.id, "UPDATE", "TO_TODOIST", p.todoistId, none⟩
  | .ok (some rid) => ⟨"project", p.id, "CREATE", "TO_TODOIST", some rid, none⟩

/-- The result record the task loop appends for one snapshot entry, or
`none` when the entry is skipped. -/
def taskStepResult (api : TodoistApi) (tp : Task × Option Project) : Option SyncResult :=
  match tp.2 with
  | none => none
  | some proj =>
    match proj.todoistId with
    | none => none
    | some ptid =>
      some (match taskRemoteCall api tp.1 ptid with
        | .ok _ => ⟨"task", "uploaded", tp.1.id, none⟩
        | .error e => ⟨"task", "error", tp.1.id, some e⟩)

/-- The row rewrite the task loop applies to an attempted task's row. -/
def taskAfter (api : TodoistApi) (t : Task) (ptid : String) (q : Task) : Task :=
  match t.todoistId with
  | some _ =>
    match taskRemoteCall api t ptid with
    | .error _ => { q with syncStatus := .ERROR }
    | .ok _ => { q with syncStatus := .SYNCED }
  | none =>
    match api.addTask (taskPayloadOf t ptid) with
    | .error _ => { q with syncStatus := .ERROR }
    | .ok rid => { q with todoistId := some rid, syncStatus := .SYNCED }

/-- The audit row the task loop writes for an attempted task. -/
def taskLogEntry (api : TodoistApi) (t : Task) (ptid : String) : SyncLogEntry :=
  match t.todoistId with
  | some ttid =>
    match taskRemoteCall api t ptid with
    | .error e => ⟨"task", t.id, "UPDATE", "TO_TODOIST", none, some e⟩
    | .ok _ => ⟨"task", t.id, "UPDATE", "TO_TODOIST", some ttid, none⟩
  | none =>
    match api.addTask (taskPayloadOf t ptid) with
    | .error e => ⟨"task", t.id, "UPDATE", "TO_TODOIST", none, some e⟩
    | .ok rid => ⟨"task", t.id, "CREATE", "TO_TODOIST", some rid, none⟩

/-- The action a push attempt performs for an entity, as named by the
spec: a create when no remote id is assigned yet, else an update. -/
def attemptedAction (remoteId : Option String) : String :=
  if remoteId.isSome then "UPDATE" else "CREATE"

/-- A remote task is resolvable when some local project carries its
remote project reference. -/
def resolvableTask (s : Store) (rt : RemoteTask) : Bool :=
  (findProjectByTodoistId s rt.projectId).isSome

/-- Modelled from the spec: the summary shape `{total, createdOrUploaded,
errors}` that §4.4 says the completion event carries; the code's event
(websocket.ts lines 87-98) is compared against this shape. -/
structure SpecAutoSummary where
  total : Nat
  createdOrUploaded : Nat
  errors : Nat
deriving DecidableEq, Repr

/-- Modelled from the spec: the `createdOrUploaded` count is the number
of result records reporting a successful create or upload. -/
def specAutoSummaryOf (rs : List SyncResult) : SpecAutoSummary :=
  { total := rs.length
    createdOrUploaded :=
      (rs.filter fun r => r.action == "created" || r.action == "uploaded").length
    errors := errorCount rs }

/-- Store effect of one project-loop iteration (results stripped). -/
def pushProjStoreStep (api : TodoistApi) (s : Store) (p : Project) : Store :=
  (pushProjectStep api (s, []) p).1

/-- Store effect of one task-loop iteration (results stripped). -/
def pushTaskStoreStep (api : TodoistApi) (s : Store) (tp : Task × Option Project) : Store :=
  (pushTaskStep api (s, []) tp).1

/-- Store effect of one pull-projects iteration (results stripped). -/
def pullProjStoreStep (s : Store) (rp : RemoteProject) : Store :=
  (pullProjectStep (s, []) rp).1

/-! ## Concrete fixtures used by witnesses and counterexamples -/

/-- An API oracle on which every call succeeds. -/
def apiOk : TodoistApi :=
  ⟨fun _ _ => .ok (), fun _ => .ok "R1", fun _ _ => .ok (), fun _ => .ok "RT1",
   fun _ => .ok (), fun _ => .ok ()⟩

/-- An API oracle on which every call fails. -/
def apiFailAll : TodoistApi :=
  ⟨fun _ _ => .error "network error", fun _ => .error "network error",
   fun _ _ => .error "network error", fun _ => .error "network error",
   fun _ => .error "network error", fun _ => .error "network error"⟩

/-- An API oracle failing exactly the project calls. -/
def apiProjFail : TodoistApi :=
  ⟨fun _ _ => .error "boom", fun _ => .error "boom", fun _ _ => .ok (),
   fun _ => .ok "RT1", fun _ => .ok (), fun _ => .ok ()⟩

/-- A store holding one never-uploaded pending project. -/
def storeOnePending : Store :=
  ⟨[⟨1, "Inbox", "blue", none, .PENDING_UPLOAD⟩], [], [], 2, 1⟩

/-- A store holding a pending project that already carries a Todoist id,
plus a pending task of that project. -/
def storeProjWithTask : Store :=
  ⟨[⟨1, "Work", "blue", some "R1", .PENDING_UPLOAD⟩],
   [⟨1, "t", false, 2, "", none, 1, none, .PENDING_UPLOAD⟩], [], 2, 2⟩

/-- A store with two pending projects and one pending task whose project
is already synced. -/
def storeMixed : Store :=
  ⟨[⟨1, "A", "blue", none, .PENDING_UPLOAD⟩,
    ⟨2, "B", "red", some "RB", .SYNCED⟩],
   [⟨5, "t", false, 2, "", none, 2, none, .PENDING_UPLOAD⟩], [], 3, 6⟩

/-- A remote task whose remote project reference matches no local
project. -/
def remoteTaskOrphan : RemoteTask := ⟨"T1", "x", false, 1, "", none, "RX"⟩

/-- The single pending project of `storeOnePending`. -/
def pOne : Project := ⟨1, "Inbox", "blue", none, .PENDING_UPLOAD⟩

/-- A never-uploaded pending project together with a pending task of it:
the task stays blocked while its project has no Todoist id. -/
def storeTaskBlocked : Store :=
  ⟨[⟨1, "A", "blue", none, .PENDING_UPLOAD⟩],
   [⟨7, "t", false, 2, "", none, 1, none, .PENDING_UPLOAD⟩], [], 2, 8⟩

/-- The snapshot entry of `storeTaskBlocked`'s task after the project
loop failed to upload its project under `apiFailAll`. -/
def tpBlocked : Task × Option Project :=
  (⟨7, "t", false, 2, "", none, 1, none, .PENDING_UPLOAD⟩,
    some ⟨1, "A", "blue", none, .ERROR⟩)

/-! ## Basic lemmas about the store helpers -/

lemma getProject_eq_some_id {s : Store} {j : Nat} {p : Project}
    (h : getProject s j = some p) : p.id = j := by
  have := List.find?_some h
  simpa using this

lemma getProject_mem {s : Store} {j : Nat} {p : Project}
    (h : getProject s j = some p) : p ∈ s.projects :=
  List.mem_of_find?_eq_some h

lemma getTask_eq_some_id {s : Store} {j : Nat} {t : Task}
    (h : getTask s j = some t) : t.id = j := by
  have := List.find?_some h
  simpa using this

lemma getTask_mem {s : Store} {j : Nat} {t : Task}
    (h : getTask s j = some t) : t ∈ s.tasks :=
  List.mem_of_find?_eq_some h

lemma findProjectByTodoistId_spec {s : Store} {tid : String} {p : Project}
    (h : findProjectByTodoistId s tid = some p) :
    p ∈ s.projects ∧ p.todoistId = some tid := by
  refine ⟨List.mem_of_find?_eq_some h, ?_⟩
  have := List.find?_some h
  simpa using this

/-- Lookup `find?` by id commutes with an id-preserving row rewrite. -/
lemma find?_id_map (l : List Project) (g : Project → Project)
    (hg : ∀ p, (g p).id = p.id) (j : Nat) :
    (l.map g).find? (fun p => p.id == j) = (l.find? (fun p => p.id == j)).map g := by
  induction l with
  | nil => simp
  | cons a l ih =>
    by_cases h : a.id = j
    · simp [List.find?_cons, hg, h]
    · simp only [List.map_cons, List.find?_cons, hg a]
      have hb : (a.id == j) = false := by simpa using h
      simp [hb, ih]

lemma find?_id_map_task (l : List Task) (g : Task → Task)
    (hg : ∀ t, (g t).id = t.id) (j : Nat) :
    (l.map g).find? (fun t => t.id == j) = (l.find? (fun t => t.id == j)).map g := by
  induction l with
  | nil => simp
  | cons a l ih =>
    by_cases h : a.id = j
    · simp [List.find?_cons, hg, h]
    · simp only [List.map_cons, List.find?_cons, hg a]
      have hb : (a.id == j) = false := by simpa using h
      simp [hb, ih]

lemma getProject_updProject (s : Store) (i j : Nat) (f : Project → Project)
    (hf : ∀ p, (f p).id = p.id) :
    getProject (updProject s i f) j =
      (getProject s j).map fun p => if p.id == i then f p else p := by
  unfold getProject updProject
  exact find?_id_map s.projects _ (fun p => by by_cases h : p.id = i <;> simp [h, hf]) j

lemma getProject_updProject_ne (s : Store) (i j : Nat) (f : Project → Project)
    (hf : ∀ p, (f p).id = p.id) (hij : i ≠ j) :
    getProject (updProject s i f) j = getProject s j := by
  rw [getProject_updProject s i j f hf]
  cases h : getProject s j with
  | none => rfl
  | some p =>
    have hp : p.id = j := getProject_eq_some_id h
    have : (p.id == i) = false := by simp [hp, Ne.symm hij]
    simp [this]
    intro hc
    exact absurd (hc.symm.trans hp) hij

lemma getTask_updTaskById (s : Store) (i j : Nat) (f : Task → Task)
    (hf : ∀ t, (f t).id = t.id) :
    getTask (updTaskById s i f) j =
      (getTask s j).map fun t => if t.id == i then f t else t := by
  unfold getTask updTaskById
  exact find?_id_map_task s.tasks _ (fun t => by by_cases h : t.id = i <;> simp [h, hf]) j

lemma getTask_updTaskById_ne (s : Store) (i j : Nat) (f : Task → Task)
    (hf : ∀ t, (f t).id = t.id) (hij : i ≠ j) :
    getTask (updTaskById s i f) j = getTask s j := by
  rw [getTask_updTaskById s i j f hf]
  cases h : getTask s j with
  | none => rfl
  | some t =>
    have ht : t.id = j := getTask_eq_some_id h
    have : (t.id == i) = false := by simp [ht, Ne.symm hij]
    simp [this]
    intro hc
    exact absurd (hc.symm.trans ht) hij

/-- Lookup `find?` by unique id returns the member itself. -/
lemma find?_of_nodup_proj {l : List Project} (h : (l.map Project.id).Nodup)
    {p : Project} (hp : p ∈ l) : l.find? (fun q => q.id == p.id) = some p := by
  induction l with
  | nil => cases hp
  | cons a l ih =>
    rcases List.mem_cons.mp hp with rfl | hmem
    · simp [List.find?_cons]
    · have ha : a.id ∉ l.map Project.id := (List.nodup_cons.mp h).1
      have hne : (a.id == p.id) = false := by
        simp only [beq_eq_false_iff_ne, ne_eq]
        intro hc
        exact ha (hc ▸ List.mem_map_of_mem Project.id hmem)
      simp [List.find?_cons, hne, ih (List.nodup_cons.mp h).2 hmem]

lemma find?_of_nodup_task {l : List Task} (h : (l.map Task.id).Nodup)
    {t : Task} (ht : t ∈ l) : l.find? (fun q => q.id == t.id) = some t := by
  induction l with
  | nil => cases ht
  | cons a l ih =>
    rcases List.mem_cons.mp ht with rfl | hmem
    · simp [List.find?_cons]
    · have ha : a.id ∉ l.map Task.id := (List.nodup_cons.mp h).1
      have hne : (a.id == t.id) = false := by
        simp only [beq_eq_false_iff_ne, ne_eq]
        intro hc
        exact ha (hc ▸ List.mem_map_of_mem Task.id hmem)
      simp [List.find?_cons, hne, ih (List.nodup_cons.mp h).2 hmem]

/-- A found element stays found after appending rows on the right. -/
lemma find?_append_of_found {α : Type} {l : List α} {pred : α → Bool} {v : α}
    (h : l.find? pred = some v) (l' : List α) : (l ++ l').find? pred = some v := by
  induction l with
  | nil => simp [List.find?] at h
  | cons a l ih =>
    rw [List.cons_append]
    cases ha : pred a with
    | true => simpa [List.find?_cons, ha] using by simpa [List.find?_cons, ha] using h
    | false =>
      have h' : l.find? pred = some v := by simpa [List.find?_cons, ha] using h
      simpa [List.find?_cons, ha] using ih h'

/-! ## Characterization of the project loop of `uploadToTodoist` -/

lemma projAfter_id (api : TodoistApi) (p q : Project) : (projAfter api p q).id = q.id := by
  unfold projAfter
  rcases projRemoteCall api p with e | r
  · rfl
  · cases r <;> rfl

/-- One project-loop iteration splits into its store effect and the one
result record it appends. -/
lemma pushProjectStep_eq (api : TodoistApi) (acc : Store × List SyncResult) (p : Project) :
    pushProjectStep api acc p = (pushProjStoreStep api acc.1 p, acc.2 ++ [projResult api p]) := by
  rcases hp : p.todoistId with _ | tid
  · rcases h : api.addProject p.name with e | rid <;>
      simp [pushProjectStep, pushProjStoreStep, projResult, projRemoteCall, hp, h, Except.map]
  · rcases h : api.updateProject tid p.name with e | u <;>
      simp [pushProjectStep, pushProjStoreStep, projResult, projRemoteCall, hp, h, Except.map]

lemma pushProjStoreStep_projects (api : TodoistApi) (s : Store) (p : Project) :
    (pushProjStoreStep api s p).projects =
      s.projects.map fun q => if q.id == p.id then projAfter api p q else q := by
  unfold pushProjStoreStep pushProjectStep projAfter projRemoteCall
  rcases hp : p.todoistId with _ | tid
  · rcases h : api.addProject p.name with e | rid
    · simp [hp, h, Except.map, updProject, addLog]
    · simp only [hp, h, Except.map, updProject, addLog, List.map_map]
      apply List.map_congr_left
      intro q _
      by_cases hq : q.id = p.id <;> simp [hq]
  · rcases h : api.updateProject tid p.name with e | u
    · simp [hp, h, Except.map, updProject, addLog]
    · simp [hp, h, Except.map, updProject, addLog]

lemma pushProjStoreStep_syncLog (api : TodoistApi) (s : Store) (p : Project) :
    (pushProjStoreStep api s p).syncLog = s.syncLog ++ [projLogEntry api p] := by
  unfold pushProjStoreStep pushProjectStep projLogEntry projRemoteCall
  rcases hp : p.todoistId with _ | tid
  · rcases h : api.addProject p.name with e | rid <;>
      simp [hp, h, Except.map, updProject, addLog]
  · rcases h : api.updateProject tid p.name with e | u <;>
      simp [hp, h, Except.map, updProject, addLog]

lemma pushProjStoreStep_tasks (api : TodoistApi) (s : Store) (p : Project) :
    (pushProjStoreStep api s p).tasks = s.tasks := by
  unfold pushProjStoreStep pushProjectStep
  rcases hp : p.todoistId with _ | tid
  · rcases h : api.addProject p.name with e | rid <;> simp [hp, h, updProject, addLog]
  · rcases h : api.updateProject tid p.name with e | u <;> simp [hp, h, updProject, addLog]

lemma pushProjStoreStep_nextProjectId (api : TodoistApi) (s : Store) (p : Project) :
    (pushProjStoreStep api s p).nextProjectId = s.nextProjectId := by
  unfold pushProjStoreStep pushProjectStep
  rcases hp : p.todoistId with _ | tid
  · rcases h : api.addProject p.name with e | rid <;> simp [hp, h, updProject, addLog]
  · rcases h : api.updateProject tid p.name with e | u <;> simp [hp, h, updProject, addLog]

lemma pushProjStoreStep_nextTaskId (api : TodoistApi) (s : Store) (p : Project) :
    (pushProjStoreStep api s p).nextTaskId = s.nextTaskId := by
  unfold pushProjStoreStep pushProjectStep
  rcases hp : p.todoistId with _ | tid
  · rcases h : api.addProject p.name with e | rid <;> simp [hp, h, updProject, addLog]
  · rcases h : api.updateProject tid p.name with e | u <;> simp [hp, h, updProject, addLog]

/-- The project loop: results are one `projResult` per pending project. -/
lemma foldl_pushProjectStep (api : TodoistApi) (L : List Project) :
    ∀ (s : Store) (rs : List SyncResult),
      L.foldl (pushProjectStep api) (s, rs) =
        (L.foldl (pushProjStoreStep api) s, rs ++ L.map (projResult api)) := by
  induction L with
  | nil => intro s rs; simp
  | cons a L ih =>
    intro s rs
    rw [List.foldl_cons, pushProjectStep_eq, ih, List.foldl_cons, List.map_cons]
    simp

lemma getProject_pushProjStoreStep (api : TodoistApi) (s : Store) (p : Project) (j : Nat) :
    getProject (pushProjStoreStep api s p) j =
      (getProject s j).map fun q => if q.id == p.id then projAfter api p q else q := by
  unfold getProject
  rw [pushProjStoreStep_projects]
  exact find?_id_map s.projects _
    (fun q => by by_cases h : q.id = p.id <;> simp [h, projAfter_id]) j

lemma getProject_pushProjStoreStep_ne (api : TodoistApi) (s : Store) (p : Project)
    {j : Nat} (hne : p.id ≠ j) :
    getProject (pushProjStoreStep api s p) j = getProject s j := by
  rw [getProject_pushProjStoreStep]
  cases h : getProject s j with
  | none => rfl
  | some q =>
    have hq : q.id = j := getProject_eq_some_id h
    have : (q.id == p.id) = false := by
      simp only [beq_eq_false_iff_ne, ne_eq]
      intro hc
      exact hne (hc ▸ hq)
    simp [this]
    intro hc
    exact absurd (hc ▸ hq) hne

lemma syncLog_mono_pushProjStoreStep (api : TodoistApi) (s : Store) (p : Project)
    {e : SyncLogEntry} (h : e ∈ s.syncLog) : e ∈ (pushProjStoreStep api s p).syncLog := by
  rw [pushProjStoreStep_syncLog]
  exact List.mem_append_left _ h

lemma foldProj_getProject_frame (api : TodoistApi) (L : List Project) (i : Nat)
    (hL : ∀ q ∈ L, q.id ≠ i) :
    ∀ s : Store, getProject (L.foldl (pushProjStoreStep api) s) i = getProject s i := by
  induction L with
  | nil => intro s; rfl
  | cons a L ih =>
    intro s
    rw [List.foldl_cons, ih (fun q hq => hL q (List.mem_cons_of_mem a hq)),
      getProject_pushProjStoreStep_ne api s a (hL a (List.mem_cons_self a L))]

lemma foldProj_syncLog_mono (api : TodoistApi) (L : List Project) :
    ∀ (s : Store) {e : SyncLogEntry}, e ∈ s.syncLog →
      e ∈ (L.foldl (pushProjStoreStep api) s).syncLog := by
  induction L with
  | nil => intro s e h; exact h
  | cons a L ih =>
    intro s e h
    exact ih _ (syncLog_mono_pushProjStoreStep api s a h)

/-- Each pending project is rewritten exactly by `projAfter`, and its
audit row is in the final log. -/
lemma foldProj_spec (api : TodoistApi) :
    ∀ (L : List Project) (s : Store),
      (∀ q ∈ L, getProject s q.id = some q) → (L.map Project.id).Nodup →
      ∀ p ∈ L,
        getProject (L.foldl (pushProjStoreStep api) s) p.id = some (projAfter api p p) ∧
        projLogEntry api p ∈ (L.foldl (pushProjStoreStep api) s).syncLog := by
  intro L
  induction L with
  | nil => intro s _ _ p hp; cases hp
  | cons a L ih =>
    intro s hget hnd p hp
    have hnd' : (L.map Project.id).Nodup := (List.nodup_cons.mp hnd).2
    have hafresh : a.id ∉ L.map Project.id := (List.nodup_cons.mp hnd).1
    rcases List.mem_cons.mp hp with rfl | hmem
    · -- the head is processed now and untouched afterwards
      constructor
      · rw [List.foldl_cons,
          foldProj_getProject_frame api L p.id
            (fun q hq hc => hafresh (hc ▸ List.mem_map_of_mem Project.id hq)),
          getProject_pushProjStoreStep]
        rw [hget p (List.mem_cons_self p L)]
        simp
      · rw [List.foldl_cons]
        apply foldProj_syncLog_mono
        rw [pushProjStoreStep_syncLog]
        exact List.mem_append_right _ (List.mem_singleton.mpr rfl)
    · -- the head leaves later pending projects untouched
      rw [List.foldl_cons]
      apply ih _ _ hnd' p hmem
      intro q hq
      have hne : a.id ≠ q.id := fun hc =>
        hafresh (hc ▸ List.mem_map_of_mem Project.id hq)
      rw [getProject_pushProjStoreStep_ne api s a hne]
      exact hget q (List.mem_cons_of_mem a hq)

/-- The `pushProjectsPhase` loop in closed form. -/
lemma pushProjectsPhase_eq (s : Store) (api : TodoistApi) :
    pushProjectsPhase s api =
      ((pendingProjects s).foldl (pushProjStoreStep api) s,
        (pendingProjects s).map (projResult api)) := by
  unfold pushProjectsPhase
  rw [foldl_pushProjectStep]
  simp

lemma pendingProjects_getProject {s : Store} (h : (s.projects.map Project.id).Nodup) :
    ∀ q ∈ pendingProjects s, getProject s q.id = some q := by
  intro q hq
  exact find?_of_nodup_proj h (List.mem_of_mem_filter hq)

lemma pendingProjects_nodup {s : Store} (h : (s.projects.map Project.id).Nodup) :
    ((pendingProjects s).map Project.id).Nodup :=
  h.sublist ((List.filter_sublist _).map Project.id)

/-! ## Outcome bridges for `projRemoteCall` / `taskRemoteCall` -/

lemma projAfter_error {api : TodoistApi} {p : Project} {e : String}
    (h : projRemoteCall api p = .error e) (q : Project) :
    projAfter api p q = { q with syncStatus := .ERROR } := by
  simp [projAfter, h]

lemma projAfter_ok {api : TodoistApi} {p : Project} {r : Option String}
    (h : projRemoteCall api p = .ok r) (q : Project) :
    (projAfter api p q).syncStatus = .SYNCED := by
  cases r <;> simp [projAfter, h]

lemma projLogEntry_error {api : TodoistApi} {p : Project} {e : String}
    (h : projRemoteCall api p = .error e) :
    projLogEntry api p = ⟨"project", p.id, "UPDATE", "TO_TODOIST", none, some e⟩ := by
  simp [projLogEntry, h]

lemma projResult_error {api : TodoistApi} {p : Project} {e : String}
    (h : projRemoteCall api p = .error e) :
    projResult api p = ⟨"project", "error", p.id, some e⟩ := by
  simp [projResult, h]

lemma taskAfter_id (api : TodoistApi) (t : Task) (ptid : String) (q : Task) :
    (taskAfter api t ptid q).id = q.id := by
  unfold taskAfter
  rcases htt : t.todoistId with _ | ttid
  · rcases h : api.addTask (taskPayloadOf t ptid) with e | rid <;> simp
  · rcases h : taskRemoteCall api t ptid with e | r <;> simp

lemma taskAfter_error {api : TodoistApi} {t : Task} {ptid : String} {e : String}
    (h : taskRemoteCall api t ptid = .error e) (q : Task) :
    taskAfter api t ptid q = { q with syncStatus := .ERROR } := by
  unfold taskAfter
  rcases htt : t.todoistId with _ | ttid
  · rcases ha : api.addTask (taskPayloadOf t ptid) with e' | rid
    · simp
    · exfalso
      unfold taskRemoteCall at h
      simp [htt, ha, Except.map] at h
  · simp [htt, h]

lemma taskAfter_ok {api : TodoistApi} {t : Task} {ptid : String} {r : Option String}
    (h : taskRemoteCall api t ptid = .ok r) (q : Task) :
    (taskAfter api t ptid q).syncStatus = .SYNCED := by
  unfold taskAfter
  rcases htt : t.todoistId with _ | ttid
  · rcases ha : api.addTask (taskPayloadOf t ptid) with e' | rid
    · exfalso
      unfold taskRemoteCall at h
      simp [htt, ha, Except.map] at h
    · simp
  · simp [htt, h]

lemma taskLogEntry_error {api : TodoistApi} {t : Task} {ptid : String} {e : String}
    (h : taskRemoteCall api t ptid = .error e) :
    taskLogEntry api t ptid = ⟨"task", t.id, "UPDATE", "TO_TODOIST", none, some e⟩ := by
  unfold taskLogEntry
  rcases htt : t.todoistId with _ | ttid
  · rcases ha : api.addTask (taskPayloadOf t ptid) with e' | rid
    · unfold taskRemoteCall at h
      simp only [htt, ha, Except.map] at h
      cases h
      rfl
    · exfalso
      unfold taskRemoteCall at h
      simp [htt, ha, Except.map] at h
  · simp [htt, h]

lemma taskStepResult_error {api : TodoistApi} {tp : Task × Option Project} {proj : Project}
    {ptid : String} {e : String} (hpo : tp.2 = some proj)
    (hpt : proj.todoistId = some ptid)
    (h : taskRemoteCall api tp.1 ptid = .error e) :
    taskStepResult api tp = some ⟨"task", "error", tp.1.id, some e⟩ := by
  rcases tp with ⟨t, po⟩
  cases hpo
  simp [taskStepResult, hpt, h]

/-! ## Characterization of the task loop of `uploadToTodoist` -/

lemma pushTaskStep_eq (api : TodoistApi) (acc : Store × List SyncResult)
    (tp : Task × Option Project) :
    pushTaskStep api acc tp =
      (pushTaskStoreStep api acc.1 tp, acc.2 ++ (taskStepResult api tp).toList) := by
  rcases tp with ⟨t, po⟩
  rcases po with _ | proj
  · simp [pushTaskStep, pushTaskStoreStep, taskStepResult]
  · rcases hpt : proj.todoistId with _ | ptid
    · simp [pushTaskStep, pushTaskStoreStep, taskStepResult, hpt]
    · rcases htt : t.todoistId with _ | ttid
      · rcases h : api.addTask (taskPayloadOf t ptid) with e | rid <;>
          simp [pushTaskStep, pushTaskStoreStep, taskStepResult, taskRemoteCall,
            hpt, htt, h, Except.map]
      · rcases h : taskRemoteCall api t ptid with e | r <;>
          simp [pushTaskStep, pushTaskStoreStep, taskStepResult, hpt, htt, h]

lemma pushTaskStoreStep_skip_none {api : TodoistApi} {s : Store}
    {tp : Task × Option Project} (h : tp.2 = none) :
    pushTaskStoreStep api s tp = s := by
  rcases tp with ⟨t, po⟩
  cases h
  rfl

lemma pushTaskStoreStep_skip_noTid {api : TodoistApi} {s : Store}
    {tp : Task × Option Project} {proj : Project} (h : tp.2 = some proj)
    (h2 : proj.todoistId = none) : pushTaskStoreStep api s tp = s := by
  rcases tp with ⟨t, po⟩
  cases h
  simp [pushTaskStoreStep, pushTaskStep, h2]

lemma pushTaskStoreStep_projects (api : TodoistApi) (s : Store)
    (tp : Task × Option Project) : (pushTaskStoreStep api s tp).projects = s.projects := by
  rcases tp with ⟨t, po⟩
  rcases po with _ | proj
  · rfl
  · rcases hpt : proj.todoistId with _ | ptid
    · simp [pushTaskStoreStep, pushTaskStep, hpt]
    · rcases htt : t.todoistId with _ | ttid
      · rcases h : api.addTask (taskPayloadOf t ptid) with e | rid <;>
          simp [pushTaskStoreStep, pushTaskStep, hpt, htt, h, updTaskById, addLog]
      · rcases h : taskRemoteCall api t ptid with e | r <;>
          simp [pushTaskStoreStep, pushTaskStep, hpt, htt, h, updTaskById, addLog]

lemma pushTaskStoreStep_tasks_attempt {api : TodoistApi} (s : Store)
    {tp : Task × Option Project} {proj : Project} {ptid : String}
    (h : tp.2 = some proj) (h2 : proj.todoistId = some ptid) :
    (pushTaskStoreStep api s tp).tasks =
      s.tasks.map fun q => if q.id == tp.1.id then taskAfter api tp.1 ptid q else q := by
  rcases tp with ⟨t, po⟩
  cases h
  simp only
  rcases htt : t.todoistId with _ | ttid
  · rcases ha : api.addTask (taskPayloadOf t ptid) with e | rid
    · simp [pushTaskStoreStep, pushTaskStep, taskAfter, h2, htt, ha, updTaskById, addLog]
    · simp only [pushTaskStoreStep, pushTaskStep, taskAfter, h2, htt, ha,
        updTaskById, addLog, List.map_map]
      apply List.map_congr_left
      intro q _
      by_cases hq : q.id = t.id <;> simp [hq]
  · rcases hr : taskRemoteCall api t ptid with e | r <;>
      simp [pushTaskStoreStep, pushTaskStep, taskAfter, h2, htt, hr, updTaskById, addLog]

lemma pushTaskStoreStep_syncLog_attempt {api : TodoistApi} (s : Store)
    {tp : Task × Option Project} {proj : Project} {ptid : String}
    (h : tp.2 = some proj) (h2 : proj.todoistId = some ptid) :
    (pushTaskStoreStep api s tp).syncLog = s.syncLog ++ [taskLogEntry api tp.1 ptid] := by
  rcases tp with ⟨t, po⟩
  cases h
  simp only
  rcases htt : t.todoistId with _ | ttid
  · rcases ha : api.addTask (taskPayloadOf t ptid) with e | rid <;>
      simp [pushTaskStoreStep, pushTaskStep, taskLogEntry, h2, htt, ha, updTaskById, addLog]
  · rcases hr : taskRemoteCall api t ptid with e | r <;>
      simp [pushTaskStoreStep, pushTaskStep, taskLogEntry, h2, htt, hr, updTaskById, addLog]

lemma pushTaskStoreStep_syncLog_mono (api : TodoistApi) (s : Store)
    (tp : Task × Option Project) {e : SyncLogEntry} (h : e ∈ s.syncLog) :
    e ∈ (pushTaskStoreStep api s tp).syncLog := by
  rcases tp with ⟨t, po⟩
  rcases po with _ | proj
  · exact h
  · rcases hpt : proj.todoistId with _ | ptid
    · rw [pushTaskStoreStep_skip_noTid rfl hpt]
      exact h
    · rw [pushTaskStoreStep_syncLog_attempt s rfl hpt]
      exact List.mem_append_left _ h

lemma getTask_pushTaskStoreStep_attempt {api : TodoistApi} (s : Store)
    {tp : Task × Option Project} {proj : Project} {ptid : String}
    (h : tp.2 = some proj) (h2 : proj.todoistId = some ptid) (j : Nat) :
    getTask (pushTaskStoreStep api s tp) j =
      (getTask s j).map fun q => if q.id == tp.1.id then taskAfter api tp.1 ptid q else q := by
  unfold getTask
  rw [pushTaskStoreStep_tasks_attempt s h h2]
  exact find?_id_map_task s.tasks _
    (fun q => by by_cases hq : q.id = tp.1.id <;> simp [hq, taskAfter_id]) j

lemma getTask_pushTaskStoreStep_ne (api : TodoistApi) (s : Store)
    (tp : Task × Option Project) {j : Nat} (hne : tp.1.id ≠ j) :
    getTask (pushTaskStoreStep api s tp) j = getTask s j := by
  rcases hpo : tp.2 with _ | proj
  · rw [pushTaskStoreStep_skip_none hpo]
  · rcases hpt : proj.todoistId with _ | ptid
    · rw [pushTaskStoreStep_skip_noTid hpo hpt]
    · rw [getTask_pushTaskStoreStep_attempt s hpo hpt]
      cases h : getTask s j with
      | none => rfl
      | some q =>
        have hq : q.id = j := getTask_eq_some_id h
        have : (q.id == tp.1.id) = false := by
          simp only [beq_eq_false_iff_ne, ne_eq]
          intro hc
          exact hne (hc ▸ hq)
        simp [this]
        intro hc
        exact absurd (hc ▸ hq) hne

lemma foldl_pushTaskStep (api : TodoistApi) (L : List (Task × Option Project)) :
    ∀ (s : Store) (rs : List SyncResult),
      L.foldl (pushTaskStep api) (s, rs) =
        (L.foldl (pushTaskStoreStep api) s, rs ++ L.filterMap (taskStepResult api)) := by
  induction L with
  | nil => intro s rs; simp
  | cons a L ih =>
    intro s rs
    rw [List.foldl_cons, pushTaskStep_eq, ih, List.foldl_cons]
    cases h : taskStepResult api a <;> simp [h, List.filterMap_cons]

lemma foldTask_getTask_frame (api : TodoistApi) (L : List (Task × Option Project)) (i : Nat)
    (hL : ∀ tp ∈ L, tp.1.id ≠ i) :
    ∀ s : Store, getTask (L.foldl (pushTaskStoreStep api) s) i = getTask s i := by
  induction L with
  | nil => intro s; rfl
  | cons a L ih =>
    intro s
    rw [List.foldl_cons, ih (fun tp htp => hL tp (List.mem_cons_of_mem a htp)),
      getTask_pushTaskStoreStep_ne api s a (hL a (List.mem_cons_self a L))]

lemma foldTask_syncLog_mono (api : TodoistApi) (L : List (Task × Option Project)) :
    ∀ (s : Store) {e : SyncLogEntry}, e ∈ s.syncLog →
      e ∈ (L.foldl (pushTaskStoreStep api) s).syncLog := by
  induction L with
  | nil => intro s e h; exact h
  | cons a L ih =>
    intro s e h
    exact ih _ (pushTaskStoreStep_syncLog_mono api s a h)

lemma foldTask_projects (api : TodoistApi) (L : List (Task × Option Project)) :
    ∀ s : Store, (L.foldl (pushTaskStoreStep api) s).projects = s.projects := by
  induction L with
  | nil => intro s; rfl
  | cons a L ih =>
    intro s
    rw [List.foldl_cons, ih, pushTaskStoreStep_projects]

lemma foldProj_tasks (api : TodoistApi) (L : List Project) :
    ∀ s : Store, (L.foldl (pushProjStoreStep api) s).tasks = s.tasks := by
  induction L with
  | nil => intro s; rfl
  | cons a L ih =>
    intro s
    rw [List.foldl_cons, ih, pushProjStoreStep_tasks]

/-- Each snapshot entry is skipped untouched, or rewritten by `taskAfter`
with its audit row logged. -/
lemma foldTask_spec (api : TodoistApi) :
    ∀ (L : List (Task × Option Project)) (s : Store),
      (∀ tp ∈ L, getTask s tp.1.id = some tp.1) →
      (L.map fun tp => tp.1.id).Nodup →
      ∀ tp ∈ L,
        (tp.2 = none →
          getTask (L.foldl (pushTaskStoreStep api) s) tp.1.id = some tp.1) ∧
        (∀ proj, tp.2 = some proj → proj.todoistId = none →
          getTask (L.foldl (pushTaskStoreStep api) s) tp.1.id = some tp.1) ∧
        (∀ proj ptid, tp.2 = some proj → proj.todoistId = some ptid →
          getTask (L.foldl (pushTaskStoreStep api) s) tp.1.id =
            some (taskAfter api tp.1 ptid tp.1) ∧
          taskLogEntry api tp.1 ptid ∈ (L.foldl (pushTaskStoreStep api) s).syncLog) := by
  intro L
  induction L with
  | nil => intro s _ _ tp htp; cases htp
  | cons a L ih =>
    intro s hget hnd tp htp
    have hnd' : (L.map fun tp => tp.1.id).Nodup := (List.nodup_cons.mp hnd).2
    have hafresh : a.1.id ∉ L.map (fun tp => tp.1.id) := (List.nodup_cons.mp hnd).1
    rcases List.mem_cons.mp htp with rfl | hmem
    · refine ⟨?_, ?_, ?_⟩
      · intro hpo
        rw [List.foldl_cons,
          foldTask_getTask_frame api L tp.1.id
            (fun q hq hc => hafresh (hc ▸ List.mem_map_of_mem (fun tp => tp.1.id) hq)),
          pushTaskStoreStep_skip_none hpo]
        exact hget tp (List.mem_cons_self tp L)
      · intro proj hpo hpt
        rw [List.foldl_cons,
          foldTask_getTask_frame api L tp.1.id
            (fun q hq hc => hafresh (hc ▸ List.mem_map_of_mem (fun tp => tp.1.id) hq)),
          pushTaskStoreStep_skip_noTid hpo hpt]
        exact hget tp (List.mem_cons_self tp L)
      · intro proj ptid hpo hpt
        constructor
        · rw [List.foldl_cons,
            foldTask_getTask_frame api L tp.1.id
              (fun q hq hc => hafresh (hc ▸ List.mem_map_of_mem (fun tp => tp.1.id) hq)),
            getTask_pushTaskStoreStep_attempt s hpo hpt,
            hget tp (List.mem_cons_self tp L)]
          simp
        · rw [List.foldl_cons]
          apply foldTask_syncLog_mono
          rw [pushTaskStoreStep_syncLog_attempt s hpo hpt]
          exact List.mem_append_right _ (List.mem_singleton.mpr rfl)
    · rw [List.foldl_cons]
      apply ih _ _ hnd' tp hmem
      intro q hq
      have hne : a.1.id ≠ q.1.id := fun hc =>
        hafresh (hc ▸ List.mem_map_of_mem (fun tp => tp.1.id) hq)
      rw [getTask_pushTaskStoreStep_ne api s a hne]
      exact hget q (List.mem_cons_of_mem a hq)

/-! ## Snapshot membership facts -/

lemma pendingTaskSnapshot_spec {s : Store} {tp : Task × Option Project}
    (h : tp ∈ pendingTaskSnapshot s) :
    tp.1 ∈ s.tasks ∧ tp.1.syncStatus = .PENDING_UPLOAD ∧
      tp.2 = getProject s tp.1.projectId := by
  unfold pendingTaskSnapshot at h
  rcases List.mem_map.mp h with ⟨t, ht, rfl⟩
  have := List.mem_filter.mp ht
  exact ⟨this.1, by simpa using this.2, rfl⟩

lemma pendingTaskSnapshot_getTask {s : Store} (h : (s.tasks.map Task.id).Nodup) :
    ∀ tp ∈ pendingTaskSnapshot s, getTask s tp.1.id = some tp.1 := by
  intro tp htp
  exact find?_of_nodup_task h (pendingTaskSnapshot_spec htp).1

lemma pendingTaskSnapshot_nodup {s : Store} (h : (s.tasks.map Task.id).Nodup) :
    ((pendingTaskSnapshot s).map fun tp => tp.1.id).Nodup := by
  unfold pendingTaskSnapshot
  rw [List.map_map]
  have : ((s.tasks.filter fun t => t.syncStatus == .PENDING_UPLOAD).map
      ((fun tp : Task × Option Project => tp.1.id) ∘ fun t => (t, getProject s t.projectId)))
      = (s.tasks.filter fun t => t.syncStatus == .PENDING_UPLOAD).map Task.id := by
    simp [Function.comp]
  rw [this]
  exact h.sublist ((List.filter_sublist _).map Task.id)

/-! ## `uploadToTodoist` assembled -/

lemma getProject_eq_of_projects {s₁ s₂ : Store} (h : s₁.projects = s₂.projects) (i : Nat) :
    getProject s₁ i = getProject s₂ i := by
  unfold getProject
  rw [h]

lemma getTask_eq_of_tasks {s₁ s₂ : Store} (h : s₁.tasks = s₂.tasks) (i : Nat) :
    getTask s₁ i = getTask s₂ i := by
  unfold getTask
  rw [h]

/-- The whole `uploadToTodoist` in closed form: project loop on the pending-project
scan, then task loop on the snapshot taken after it, results appended. -/
lemma uploadToTodoist_eq (s : Store) (api : TodoistApi) :
    uploadToTodoist s api =
      ((pendingTaskSnapshot (pushProjectsPhase s api).1).foldl (pushTaskStoreStep api)
          (pushProjectsPhase s api).1,
        (pendingProjects s).map (projResult api) ++
          (pendingTaskSnapshot (pushProjectsPhase s api).1).filterMap (taskStepResult api)) := by
  have h2 : (pushProjectsPhase s api).2 = (pendingProjects s).map (projResult api) := by
    rw [pushProjectsPhase_eq]
  simp only [uploadToTodoist, pushTasksPhase]
  rw [foldl_pushTaskStep, h2]
  simp

lemma pushProjStoreStep_ids (api : TodoistApi) (s : Store) (p : Project) :
    (pushProjStoreStep api s p).projects.map Project.id = s.projects.map Project.id := by
  rw [pushProjStoreStep_projects, List.map_map]
  apply List.map_congr_left
  intro q _
  by_cases hq : q.id = p.id <;> simp [hq, projAfter_id, Function.comp]

lemma foldProj_ids (api : TodoistApi) (L : List Project) :
    ∀ s : Store, (L.foldl (pushProjStoreStep api) s).projects.map Project.id =
      s.projects.map Project.id := by
  induction L with
  | nil => intro s; rfl
  | cons a L ih =>
    intro s
    rw [List.foldl_cons, ih, pushProjStoreStep_ids]

lemma pushTaskStoreStep_taskIds (api : TodoistApi) (s : Store)
    (tp : Task × Option Project) :
    (pushTaskStoreStep api s tp).tasks.map Task.id = s.tasks.map Task.id := by
  rcases hpo : tp.2 with _ | proj
  · rw [pushTaskStoreStep_skip_none hpo]
  · rcases hpt : proj.todoistId with _ | ptid
    · rw [pushTaskStoreStep_skip_noTid hpo hpt]
    · rw [pushTaskStoreStep_tasks_attempt s hpo hpt, List.map_map]
      apply List.map_congr_left
      intro q _
      by_cases hq : q.id = tp.1.id <;> simp [hq, taskAfter_id, Function.comp]

lemma foldTask_taskIds (api : TodoistApi) (L : List (Task × Option Project)) :
    ∀ s : Store, (L.foldl (pushTaskStoreStep api) s).tasks.map Task.id =
      s.tasks.map Task.id := by
  induction L with
  | nil => intro s; rfl
  | cons a L ih =>
    intro s
    rw [List.foldl_cons, ih, pushTaskStoreStep_taskIds]

/-- Project ids (and hence their uniqueness) survive a push pass. -/
lemma upload_projIds (s : Store) (api : TodoistApi) :
    (uploadToTodoist s api).1.projects.map Project.id = s.projects.map Project.id := by
  rw [uploadToTodoist_eq]
  have h1 : ((pendingTaskSnapshot (pushProjectsPhase s api).1).foldl (pushTaskStoreStep api)
      (pushProjectsPhase s api).1).projects = (pushProjectsPhase s api).1.projects :=
    foldTask_projects api _ _
  rw [h1, pushProjectsPhase_eq]
  exact foldProj_ids api _ s

/-- Task ids survive a push pass. -/
lemma upload_taskIds (s : Store) (api : TodoistApi) :
    (uploadToTodoist s api).1.tasks.map Task.id = s.tasks.map Task.id := by
  rw [uploadToTodoist_eq]
  rw [foldTask_taskIds]
  rw [pushProjectsPhase_eq]
  have := foldProj_tasks api (pendingProjects s) s
  rw [this]

/-- Final state and audit row of each pending project across the whole
push pass. -/
lemma push_proj_final (s : Store) (api : TodoistApi)
    (h : (s.projects.map Project.id).Nodup) {p : Project} (hp : p ∈ pendingProjects s) :
    getProject (uploadToTodoist s api).1 p.id = some (projAfter api p p) ∧
    projLogEntry api p ∈ (uploadToTodoist s api).1.syncLog := by
  have hspec := foldProj_spec api (pendingProjects s) s (pendingProjects_getProject h)
    (pendingProjects_nodup h) p hp
  rw [uploadToTodoist_eq]
  constructor
  · have hproj : ((pendingTaskSnapshot (pushProjectsPhase s api).1).foldl
        (pushTaskStoreStep api) (pushProjectsPhase s api).1).projects =
        (pushProjectsPhase s api).1.projects := foldTask_projects api _ _
    rw [getProject_eq_of_projects hproj p.id, pushProjectsPhase_eq]
    exact hspec.1
  · apply foldTask_syncLog_mono
    rw [pushProjectsPhase_eq]
    exact hspec.2

/-- Final state and audit row of each snapshot task across the whole push
pass. -/
lemma push_task_final (s : Store) (api : TodoistApi)
    (ht : (s.tasks.map Task.id).Nodup) {tp : Task × Option Project}
    (htp : tp ∈ pendingTaskSnapshot (pushProjectsPhase s api).1) :
    (tp.2 = none → getTask (uploadToTodoist s api).1 tp.1.id = some tp.1) ∧
    (∀ proj, tp.2 = some proj → proj.todoistId = none →
      getTask (uploadToTodoist s api).1 tp.1.id = some tp.1) ∧
    (∀ proj ptid, tp.2 = some proj → proj.todoistId = some ptid →
      getTask (uploadToTodoist s api).1 tp.1.id = some (taskAfter api tp.1 ptid tp.1) ∧
      taskLogEntry api tp.1 ptid ∈ (uploadToTodoist s api).1.syncLog) := by
  have htasks1 : (pushProjectsPhase s api).1.tasks = s.tasks := by
    rw [pushProjectsPhase_eq]
    exact foldProj_tasks api _ s
  have ht1 : ((pushProjectsPhase s api).1.tasks.map Task.id).Nodup := by
    rw [htasks1]
    exact ht
  have hspec := foldTask_spec api (pendingTaskSnapshot (pushProjectsPhase s api).1)
    (pushProjectsPhase s api).1 (pendingTaskSnapshot_getTask ht1)
    (pendingTaskSnapshot_nodup ht1) tp htp
  rw [uploadToTodoist_eq]
  exact hspec

/-! ## Shape facts about push results -/

lemma projResult_fields (api : TodoistApi) (p : Project) :
    (projResult api p).typ = "project" ∧ (projResult api p).entityId = p.id ∧
      ((projResult api p).action = "uploaded" ∨ (projResult api p).action = "error") := by
  unfold projResult
  rcases h : projRemoteCall api p with e | r <;> simp

lemma taskStepResult_fields {api : TodoistApi} {tp : Task × Option Project} {r : SyncResult}
    (h : taskStepResult api tp = some r) :
    r.typ = "task" ∧ r.entityId = tp.1.id ∧
      (r.action = "uploaded" ∨ r.action = "error") := by
  rcases hpo : tp.2 with _ | proj
  · simp [taskStepResult, hpo] at h
  · rcases hpt : proj.todoistId with _ | ptid
    · simp [taskStepResult, hpo, hpt] at h
    · rcases hc : taskRemoteCall api tp.1 ptid with e | v <;>
        · simp only [taskStepResult, hpo, hpt, hc] at h
          cases h
          simp

/-- Every push result reports `uploaded` or `error` (never `created` or
`updated`). -/
lemma upload_results_actions (s : Store) (api : TodoistApi) :
    ∀ r ∈ (uploadToTodoist s api).2, r.action = "uploaded" ∨ r.action = "error" := by
  intro r hr
  rw [uploadToTodoist_eq] at hr
  rcases List.mem_append.mp hr with hm | hm
  · rcases List.mem_map.mp hm with ⟨p, _, rfl⟩
    exact (projResult_fields api p).2.2
  · rcases List.mem_filterMap.mp hm with ⟨tp, _, htp⟩
    exact (taskStepResult_fields htp).2.2

/-! ## Characterization of `syncProjectsFromTodoist` -/

lemma updProject_ids (s : Store) (i : Nat) (f : Project → Project)
    (hf : ∀ p, (f p).id = p.id) :
    (updProject s i f).projects.map Project.id = s.projects.map Project.id := by
  unfold updProject
  rw [List.map_map]
  apply List.map_congr_left
  intro q _
  by_cases hq : q.id = i <;> simp [hq, hf, Function.comp]

lemma pullProjectStep_fst (acc : Store × List SyncResult) (rp : RemoteProject) :
    (pullProjectStep acc rp).1 = pullProjStoreStep acc.1 rp := by
  rcases h : findProjectByTodoistId acc.1 rp.id with _ | ex <;>
    simp [pullProjectStep, pullProjStoreStep, h]

lemma pullProjectStep_len (acc : Store × List SyncResult) (rp : RemoteProject) :
    (pullProjectStep acc rp).2.length = acc.2.length + 1 := by
  unfold pullProjectStep
  rcases h : findProjectByTodoistId acc.1 rp.id with _ | ex <;> simp [h]

lemma pullProjectStep_actions (acc : Store × List SyncResult) (rp : RemoteProject) :
    ∀ r ∈ (pullProjectStep acc rp).2,
      r ∈ acc.2 ∨ r.action = "created" ∨ r.action = "updated" := by
  unfold pullProjectStep
  rcases h : findProjectByTodoistId acc.1 rp.id with _ | ex <;>
    · intro r hr
      simp only [h] at hr
      rcases List.mem_append.mp hr with hm | hm
      · exact Or.inl hm
      · rcases List.mem_singleton.mp hm with rfl
        simp

lemma pullProjFold_fst (L : List RemoteProject) :
    ∀ (s : Store) (rs : List SyncResult),
      (L.foldl pullProjectStep (s, rs)).1 = L.foldl pullProjStoreStep s := by
  induction L with
  | nil => intro s rs; rfl
  | cons a L ih =>
    intro s rs
    rw [List.foldl_cons, List.foldl_cons]
    have : pullProjectStep (s, rs) a =
        ((pullProjectStep (s, rs) a).1, (pullProjectStep (s, rs) a).2) := rfl
    rw [this, pullProjectStep_fst, ih]

lemma pullProjFold_len (L : List RemoteProject) :
    ∀ (s : Store) (rs : List SyncResult),
      (L.foldl pullProjectStep (s, rs)).2.length = rs.length + L.length := by
  induction L with
  | nil => intro s rs; simp
  | cons a L ih =>
    intro s rs
    rw [List.foldl_cons]
    have : pullProjectStep (s, rs) a =
        ((pullProjectStep (s, rs) a).1, (pullProjectStep (s, rs) a).2) := rfl
    rw [this, ih, pullProjectStep_len]
    simp [Nat.add_assoc, Nat.add_comm 1 L.length]

lemma pullProjFold_actions (L : List RemoteProject) :
    ∀ (s : Store) (rs : List SyncResult),
      ∀ r ∈ (L.foldl pullProjectStep (s, rs)).2,
        r ∈ rs ∨ r.action = "created" ∨ r.action = "updated" := by
  induction L with
  | nil => intro s rs r hr; exact Or.inl hr
  | cons a L ih =>
    intro s rs r hr
    rw [List.foldl_cons] at hr
    have hsplit : pullProjectStep (s, rs) a =
        ((pullProjectStep (s, rs) a).1, (pullProjectStep (s, rs) a).2) := rfl
    rw [hsplit] at hr
    rcases ih _ _ r hr with hm | hact
    · exact pullProjectStep_actions (s, rs) a r hm
    · exact Or.inr hact

lemma pullProjStoreStep_pres (s : Store) (rp : RemoteProject) :
    ∀ p' ∈ s.projects, ∃ p'' ∈ (pullProjStoreStep s rp).projects, p''.id = p'.id := by
  intro p' hp'
  unfold pullProjStoreStep pullProjectStep
  rcases h : findProjectByTodoistId s rp.id with _ | ex
  · simp only [h, addLog]
    exact ⟨p', List.mem_append_left _ hp', rfl⟩
  · simp only [h, addLog, updProject]
    refine ⟨if p'.id == ex.id then
        { p' with name := rp.name, syncStatus := .SYNCED } else p', ?_, ?_⟩
    · exact List.mem_map_of_mem _ hp'
    · by_cases hq : p'.id = ex.id <;> simp [hq]

lemma pullProjFold_pres (L : List RemoteProject) :
    ∀ s : Store, ∀ p' ∈ s.projects,
      ∃ p'' ∈ (L.foldl pullProjStoreStep s).projects, p''.id = p'.id := by
  induction L with
  | nil => intro s p' hp'; exact ⟨p', hp', rfl⟩
  | cons a L ih =>
    intro s p' hp'
    rw [List.foldl_cons]
    rcases pullProjStoreStep_pres s a p' hp' with ⟨q, hq, hqid⟩
    rcases ih _ q hq with ⟨q', hq', hq'id⟩
    exact ⟨q', hq', hq'id.trans hqid⟩

/-- Update branch of the pull-projects loop: the matched local project
gets the remote name and `SYNCED`, one `updated` result and one
`UPDATE/FROM_TODOIST` row are appended. -/
lemma pullProjectStep_found {s : Store} {rs : List SyncResult} {rp : RemoteProject}
    {ex : Project} (h : findProjectByTodoistId s rp.id = some ex) :
    (pullProjectStep (s, rs) rp).2 = rs ++ [⟨"project", "updated", ex.id, none⟩] ∧
    (∃ q ∈ (pullProjectStep (s, rs) rp).1.projects,
      q.id = ex.id ∧ q.name = rp.name ∧ q.syncStatus = .SYNCED ∧
      q.todoistId = ex.todoistId ∧ q.color = ex.color) ∧
    (pullProjectStep (s, rs) rp).1.syncLog =
      s.syncLog ++ [⟨"project", ex.id, "UPDATE", "FROM_TODOIST", some rp.id, none⟩] := by
  have hmem : ex ∈ s.projects := (findProjectByTodoistId_spec h).1
  refine ⟨by simp [pullProjectStep, h], ?_, by simp [pullProjectStep, h, updProject, addLog]⟩
  refine ⟨{ ex with name := rp.name, syncStatus := .SYNCED }, ?_, by simp⟩
  simp only [pullProjectStep, h, updProject, addLog]
  have : ({ ex with name := rp.name, syncStatus := .SYNCED } : Project) =
      (fun q => if q.id == ex.id then { q with name := rp.name, syncStatus := .SYNCED }
        else q) ex := by simp
  rw [this]
  exact List.mem_map_of_mem _ hmem

/-- Create branch of the pull-projects loop: a fresh local project with
the mapped color, the remote id and `SYNCED` is appended, with one
`created` result and one `CREATE/FROM_TODOIST` row. -/
lemma pullProjectStep_notFound {s : Store} {rs : List SyncResult} {rp : RemoteProject}
    (h : findProjectByTodoistId s rp.id = none) :
    (pullProjectStep (s, rs) rp).2 = rs ++ [⟨"project", "created", s.nextProjectId, none⟩] ∧
    (⟨s.nextProjectId, rp.name, mapTodoistColor rp.color, some rp.id, .SYNCED⟩ : Project) ∈
      (pullProjectStep (s, rs) rp).1.projects ∧
    (pullProjectStep (s, rs) rp).1.syncLog =
      s.syncLog ++ [⟨"project", s.nextProjectId, "CREATE", "FROM_TODOIST", some rp.id, none⟩] := by
  refine ⟨by simp [pullProjectStep, h], ?_, by simp [pullProjectStep, h, addLog]⟩
  simp [pullProjectStep, h, addLog]

lemma nodup_ids_map_ite {l : List Project} (h : (l.map Project.id).Nodup)
    (f : Project → Project) (hf : ∀ p, (f p).id = p.id) :
    ((l.map f).map Project.id).Nodup := by
  rw [List.map_map]
  have : l.map (Project.id ∘ f) = l.map Project.id :=
    List.map_congr_left fun p _ => hf p
  rw [this]
  exact h

lemma bound_ids_map {l : List Project} {n : Nat} (h : ∀ q ∈ l, q.id < n)
    (f : Project → Project) (hf : ∀ p, (f p).id = p.id) :
    ∀ q ∈ l.map f, q.id < n := by
  intro q hq
  rcases List.mem_map.mp hq with ⟨q', hq', rfl⟩
  rw [hf]
  exact h q' hq'

/-- Pull-projects frame: a local project whose remote id never occurs in
the listing is left byte-for-byte intact. -/
lemma pullProjFold_frame (rid : String) (i : Nat) (v : Project)
    (hv : v.todoistId = some rid) :
    ∀ (L : List RemoteProject) (s : Store),
      (s.projects.map Project.id).Nodup →
      (∀ q ∈ s.projects, q.id < s.nextProjectId) →
      getProject s i = some v →
      (∀ rp ∈ L, rp.id ≠ rid) →
      getProject (L.foldl pullProjStoreStep s) i = some v := by
  intro L
  induction L with
  | nil => intro s _ _ hget _; exact hget
  | cons rp L ih =>
    intro s hnd hbound hget hfresh
    have hvs : v ∈ s.projects := getProject_mem hget
    have hvid : v.id = i := getProject_eq_some_id hget
    rw [List.foldl_cons]
    have hstep : pullProjStoreStep s rp = (pullProjectStep (s, ([] : List SyncResult)) rp).1 := rfl
    rcases h : findProjectByTodoistId s rp.id with _ | ex
    · -- create branch: the appended project has a fresh id above every existing one
      have hstore : pullProjStoreStep s rp =
          addLog { s with
              projects := s.projects ++
                [⟨s.nextProjectId, rp.name, mapTodoistColor rp.color, some rp.id, .SYNCED⟩]
              nextProjectId := s.nextProjectId + 1 }
            ⟨"project", s.nextProjectId, "CREATE", "FROM_TODOIST", some rp.id, none⟩ := by
        rw [hstep]
        simp [pullProjectStep, h]
      rw [hstore]
      refine ih _ ?_ ?_ ?_ (fun q hq => hfresh q (List.mem_cons_of_mem rp hq))
      · show ((s.projects ++ [_]).map Project.id).Nodup
        rw [List.map_append, List.nodup_append]
        refine ⟨hnd, List.nodup_singleton _, ?_⟩
        intro a ha hb
        rcases List.mem_map.mp ha with ⟨q, hq, rfl⟩
        simp only [List.map_cons, List.map_nil, List.mem_singleton] at hb
        exact absurd hb (Nat.ne_of_lt (hbound q hq))
      · show ∀ q ∈ s.projects ++ [_], q.id < s.nextProjectId + 1
        intro q hq
        rcases List.mem_append.mp hq with hm | hm
        · exact Nat.lt_succ_of_lt (hbound q hm)
        · rcases List.mem_singleton.mp hm with rfl
          exact Nat.lt_succ_self _
      · show (s.projects ++ [_]).find? (fun p => p.id == i) = some v
        exact find?_append_of_found hget _
    · -- update branch: the matched project is a different row
      have hexne : ex.id ≠ i := by
        intro hc
        have hexmem : ex ∈ s.projects := (findProjectByTodoistId_spec h).1
        have hexv : ex = v := by
          apply List.inj_on_of_nodup_map hnd hexmem hvs
          rw [hc, hvid]
        have : some rp.id = some rid := by
          rw [← (findProjectByTodoistId_spec h).2, hexv, hv]
        exact hfresh rp (List.mem_cons_self rp L) (Option.some_injective _ this)
      have hstore : pullProjStoreStep s rp =
          addLog (updProject s ex.id fun q =>
              { q with name := rp.name, syncStatus := .SYNCED })
            ⟨"project", ex.id, "UPDATE", "FROM_TODOIST", some rp.id, none⟩ := by
        rw [hstep]
        simp [pullProjectStep, h]
      rw [hstore]
      refine ih _ ?_ ?_ ?_ (fun q hq => hfresh q (List.mem_cons_of_mem rp hq))
      · show (((updProject s ex.id _).projects).map Project.id).Nodup
        rw [updProject_ids s ex.id
          (fun q => { q with name := rp.name, syncStatus := .SYNCED }) fun p => rfl]
        exact hnd
      · show ∀ q ∈ (updProject s ex.id _).projects, q.id < s.nextProjectId
        unfold updProject
        exact bound_ids_map hbound _
          (fun p => by by_cases hc : p.id = ex.id <;> simp [hc])
      · show getProject (updProject s ex.id _) i = some v
        rw [getProject_updProject_ne s ex.id i
          (fun q => { q with name := rp.name, syncStatus := .SYNCED }) (fun p => rfl) hexne]
        exact hget

/-! ## Characterization of `syncTasksFromTodoist` -/

lemma pullTaskStep_projects (acc : Store × List SyncResult) (rt : RemoteTask) :
    (pullTaskStep acc rt).1.projects = acc.1.projects := by
  rcases h : findProjectByTodoistId acc.1 rt.projectId with _ | proj
  · simp [pullTaskStep, h]
  · rcases h2 : findTaskByTodoistId acc.1 rt.id with _ | existing <;>
      simp [pullTaskStep, h, h2, updTaskById, addLog]

lemma pullTaskFold_projects (L : List RemoteTask) :
    ∀ acc : Store × List SyncResult,
      (L.foldl pullTaskStep acc).1.projects = acc.1.projects := by
  induction L with
  | nil => intro acc; rfl
  | cons a L ih =>
    intro acc
    rw [List.foldl_cons, ih, pullTaskStep_projects]

/-- The skip branch of the task pull loop is a strict no-op: no store
write, no log row, no result. -/
lemma pullTaskStep_skip {acc : Store × List SyncResult} {rt : RemoteTask}
    (h : findProjectByTodoistId acc.1 rt.projectId = none) :
    pullTaskStep acc rt = acc := by
  rcases acc with ⟨s, rs⟩
  simp [pullTaskStep, h]

lemma resolvableTask_congr {s s' : Store} (h : s'.projects = s.projects)
    (rt : RemoteTask) : resolvableTask s' rt = resolvableTask s rt := by
  unfold resolvableTask findProjectByTodoistId
  rw [h]

/-- Skipped remote tasks do not influence the pull at all: the loop run
on the raw listing equals its run on the resolvable sublisting. -/
lemma pullTaskFold_filter (s : Store) :
    ∀ (L : List RemoteTask) (acc : Store × List SyncResult), acc.1.projects = s.projects →
      L.foldl pullTaskStep acc = (L.filter (resolvableTask s)).foldl pullTaskStep acc := by
  intro L
  induction L with
  | nil => intro acc _; rfl
  | cons rt L ih =>
    intro acc hacc
    cases hres : resolvableTask s rt with
    | true =>
      have hfil : List.filter (resolvableTask s) (rt :: L) =
          rt :: List.filter (resolvableTask s) L := by
        simp [List.filter_cons, hres]
      rw [List.foldl_cons, hfil, List.foldl_cons]
      apply ih
      rw [pullTaskStep_projects]
      exact hacc
    | false =>
      have hres' : resolvableTask acc.1 rt = false := by
        rw [resolvableTask_congr hacc, hres]
      have hnone : findProjectByTodoistId acc.1 rt.projectId = none := by
        unfold resolvableTask at hres'
        exact Option.not_isSome_iff_eq_none.mp (by simp [hres'])
      have hfil : List.filter (resolvableTask s) (rt :: L) =
          List.filter (resolvableTask s) L := by
        simp [List.filter_cons, hres]
      rw [List.foldl_cons, hfil, pullTaskStep_skip hnone]
      exact ih acc hacc

lemma pullTaskStep_len_found {acc : Store × List SyncResult} {rt : RemoteTask}
    {proj : Project} (h : findProjectByTodoistId acc.1 rt.projectId = some proj) :
    (pullTaskStep acc rt).2.length = acc.2.length + 1 := by
  rcases h2 : findTaskByTodoistId acc.1 rt.id with _ | existing <;>
    simp [pullTaskStep, h, h2]

/-- One result per resolvable remote task. -/
lemma pullTaskFold_len (s : Store) :
    ∀ (L : List RemoteTask) (acc : Store × List SyncResult), acc.1.projects = s.projects →
      (L.foldl pullTaskStep acc).2.length =
        acc.2.length + (L.filter (resolvableTask s)).length := by
  intro L
  induction L with
  | nil => intro acc _; simp
  | cons rt L ih =>
    intro acc hacc
    cases hres : resolvableTask s rt with
    | true =>
      have hres' : resolvableTask acc.1 rt = true := by
        rw [resolvableTask_congr hacc, hres]
      have hfil : List.filter (resolvableTask s) (rt :: L) =
          rt :: List.filter (resolvableTask s) L := by
        simp [List.filter_cons, hres]
      rcases hsome : findProjectByTodoistId acc.1 rt.projectId with _ | proj
      · exfalso
        unfold resolvableTask at hres'
        rw [hsome] at hres'
        simp at hres'
      · rw [List.foldl_cons, hfil,
          ih _ (by rw [pullTaskStep_projects]; exact hacc),
          pullTaskStep_len_found hsome]
        simp only [List.length_cons]
        omega
    | false =>
      have hres' : resolvableTask acc.1 rt = false := by
        rw [resolvableTask_congr hacc, hres]
      have hnone : findProjectByTodoistId acc.1 rt.projectId = none := by
        unfold resolvableTask at hres'
        exact Option.not_isSome_iff_eq_none.mp (by simp [hres'])
      have hfil : List.filter (resolvableTask s) (rt :: L) =
          List.filter (resolvableTask s) L := by
        simp [List.filter_cons, hres]
      rw [List.foldl_cons, hfil, pullTaskStep_skip hnone]
      exact ih acc hacc

/-! ## Frames for non-pending entities and counter preservation -/

lemma pushTaskStoreStep_nextProjectId (api : TodoistApi) (s : Store)
    (tp : Task × Option Project) :
    (pushTaskStoreStep api s tp).nextProjectId = s.nextProjectId := by
  rcases tp with ⟨t, po⟩
  rcases po with _ | proj
  · rfl
  · rcases hpt : proj.todoistId with _ | ptid
    · simp [pushTaskStoreStep, pushTaskStep, hpt]
    · rcases htt : t.todoistId with _ | ttid
      · rcases h : api.addTask (taskPayloadOf t ptid) with e | rid <;>
          simp [pushTaskStoreStep, pushTaskStep, hpt, htt, h, updTaskById, addLog]
      · rcases h : taskRemoteCall api t ptid with e | r <;>
          simp [pushTaskStoreStep, pushTaskStep, hpt, htt, h, updTaskById, addLog]

lemma foldTask_nextProjectId (api : TodoistApi) (L : List (Task × Option Project)) :
    ∀ s : Store, (L.foldl (pushTaskStoreStep api) s).nextProjectId = s.nextProjectId := by
  induction L with
  | nil => intro s; rfl
  | cons a L ih =>
    intro s
    rw [List.foldl_cons, ih, pushTaskStoreStep_nextProjectId]

lemma foldProj_nextProjectId (api : TodoistApi) (L : List Project) :
    ∀ s : Store, (L.foldl (pushProjStoreStep api) s).nextProjectId = s.nextProjectId := by
  induction L with
  | nil => intro s; rfl
  | cons a L ih =>
    intro s
    rw [List.foldl_cons, ih, pushProjStoreStep_nextProjectId]

lemma upload_nextProjectId (s : Store) (api : TodoistApi) :
    (uploadToTodoist s api).1.nextProjectId = s.nextProjectId := by
  rw [uploadToTodoist_eq]
  rw [foldTask_nextProjectId, pushProjectsPhase_eq]
  exact foldProj_nextProjectId api _ s

/-- A non-pending project is never touched by the pending-project scan. -/
lemma not_pending_of_getProject {s : Store} (hnd : (s.projects.map Project.id).Nodup)
    {i : Nat} {v : Project} (hget : getProject s i = some v)
    (hv : v.syncStatus ≠ .PENDING_UPLOAD) :
    ∀ q ∈ pendingProjects s, q.id ≠ i := by
  intro q hq hc
  have hqmem : q ∈ s.projects := List.mem_of_mem_filter hq
  have hqpend : q.syncStatus = .PENDING_UPLOAD := by
    have := (List.mem_filter.mp hq).2
    simpa using this
  have hfind : getProject s q.id = some q := find?_of_nodup_proj hnd hqmem
  rw [hc, hget] at hfind
  injection hfind with hvq
  rw [hvq] at hv
  exact hv hqpend

lemma not_pending_task_of_getTask {s : Store} (hnd : (s.tasks.map Task.id).Nodup)
    {i : Nat} {v : Task} (hget : getTask s i = some v)
    (hv : v.syncStatus ≠ .PENDING_UPLOAD) :
    ∀ tq ∈ pendingTaskSnapshot s, tq.1.id ≠ i := by
  intro tq htq hc
  have hspec := pendingTaskSnapshot_spec htq
  have hfind : getTask s tq.1.id = some tq.1 := find?_of_nodup_task hnd hspec.1
  rw [hc, hget] at hfind
  injection hfind with hvq
  rw [hvq] at hv
  exact hv hspec.2.1

/-- A project not in the pending scan survives a whole push pass
unchanged. -/
lemma push_untouched_project (s : Store) (api : TodoistApi)
    (hnd : (s.projects.map Project.id).Nodup) {i : Nat} {v : Project}
    (hget : getProject s i = some v) (hv : v.syncStatus ≠ .PENDING_UPLOAD) :
    getProject (uploadToTodoist s api).1 i = some v := by
  rw [uploadToTodoist_eq]
  have hproj : ((pendingTaskSnapshot (pushProjectsPhase s api).1).foldl
      (pushTaskStoreStep api) (pushProjectsPhase s api).1).projects =
      (pushProjectsPhase s api).1.projects := foldTask_projects api _ _
  rw [getProject_eq_of_projects hproj i, pushProjectsPhase_eq]
  rw [foldProj_getProject_frame api (pendingProjects s) i
    (not_pending_of_getProject hnd hget hv) s]
  exact hget

/-- A task not in the pending scan survives a whole push pass
unchanged. -/
lemma push_untouched_task (s : Store) (api : TodoistApi)
    (ht : (s.tasks.map Task.id).Nodup) {i : Nat} {v : Task}
    (hget : getTask s i = some v) (hv : v.syncStatus ≠ .PENDING_UPLOAD) :
    getTask (uploadToTodoist s api).1 i = some v := by
  rw [uploadToTodoist_eq]
  have htasks1 : (pushProjectsPhase s api).1.tasks = s.tasks := by
    rw [pushProjectsPhase_eq]
    exact foldProj_tasks api _ s
  have ht1 : ((pushProjectsPhase s api).1.tasks.map Task.id).Nodup := by
    rw [htasks1]
    exact ht
  have hget1 : getTask (pushProjectsPhase s api).1 i = some v := by
    rw [getTask_eq_of_tasks htasks1 i]
    exact hget
  rw [foldTask_getTask_frame api (pendingTaskSnapshot (pushProjectsPhase s api).1) i
    (not_pending_task_of_getTask ht1 hget1 hv) (pushProjectsPhase s api).1]
  exact hget1

/-- No result record of a push pass concerns a project excluded from the
pending scan. -/
lemma push_no_project_result (s : Store) (api : TodoistApi)
    {i : Nat} (hexcl : ∀ q ∈ pendingProjects s, q.id ≠ i) :
    ∀ r ∈ (uploadToTodoist s api).2, ¬(r.typ = "project" ∧ r.entityId = i) := by
  intro r hr ⟨htyp, hid⟩
  rw [uploadToTodoist_eq] at hr
  rcases List.mem_append.mp hr with hm | hm
  · rcases List.mem_map.mp hm with ⟨p, hp, rfl⟩
    exact hexcl p hp ((projResult_fields api p).2.1 ▸ hid)
  · rcases List.mem_filterMap.mp hm with ⟨tp, _, htp⟩
    have := (taskStepResult_fields htp).1
    rw [this] at htyp
    exact absurd htyp (by decide)

lemma taskStepResult_skip_none {api : TodoistApi} {tp : Task × Option Project}
    (hpo : tp.2 = none) : taskStepResult api tp = none := by
  simp [taskStepResult, hpo]

lemma taskStepResult_skip_noTid {api : TodoistApi} {tp : Task × Option Project}
    {proj : Project} (hpo : tp.2 = some proj) (hpt : proj.todoistId = none) :
    taskStepResult api tp = none := by
  simp [taskStepResult, hpo, hpt]

/-- The `pushTasksPhase` loop in closed form. -/
lemma pushTasksPhase_eq (s : Store) (api : TodoistApi) :
    pushTasksPhase s api =
      ((pendingTaskSnapshot s).foldl (pushTaskStoreStep api) s,
        (pendingTaskSnapshot s).filterMap (taskStepResult api)) := by
  unfold pushTasksPhase
  rw [foldl_pushTaskStep]
  simp

lemma filter_length_zero {rs : List SyncResult} {pred : SyncResult → Bool}
    (h : ∀ r ∈ rs, pred r = false) : (rs.filter pred).length = 0 := by
  rw [List.length_eq_zero, List.filter_eq_nil_iff]
  intro r hr
  rw [h r hr]
  simp

/-! ## Reconcile dispatch in closed form -/

lemma reconcile_to (et : EntityKinds) (s : Store) (api : TodoistApi)
    (presp : ProjectsResponse) (tresp : TasksResponse) :
    reconcile .TO_TODOIST et s api presp tresp =
      .ok ⟨(uploadToTodoist s api).1, (uploadToTodoist s api).2,
        mkSummary (uploadToTodoist s api).2⟩ := rfl

lemma reconcile_from_all (s : Store) (api : TodoistApi) (rl : List RemoteProject)
    (tl : List RemoteTask) :
    reconcile .FROM_TODOIST .all s api (.arr rl) (.arr tl) =
      .ok ⟨(pullTasksList (pullProjectsList s rl).1 tl).1,
        (pullProjectsList s rl).2 ++ (pullTasksList (pullProjectsList s rl).1 tl).2,
        mkSummary ((pullProjectsList s rl).2 ++
          (pullTasksList (pullProjectsList s rl).1 tl).2)⟩ := by
  simp [reconcile, wantsProjects, wantsTasks, syncProjectsFromTodoist,
    syncTasksFromTodoist, decodeProjects, decodeTasks, Except.map, bind, Except.bind,
    pure, Except.pure]

lemma reconcile_bid_all (s : Store) (api : TodoistApi) (rl : List RemoteProject)
    (tl : List RemoteTask) :
    reconcile .BIDIRECTIONAL .all s api (.arr rl) (.arr tl) =
      .ok ⟨(pullTasksList (pullProjectsList (uploadToTodoist s api).1 rl).1 tl).1,
        (uploadToTodoist s api).2 ++
          ((pullProjectsList (uploadToTodoist s api).1 rl).2 ++
            (pullTasksList (pullProjectsList (uploadToTodoist s api).1 rl).1 tl).2),
        mkSummary ((uploadToTodoist s api).2 ++
          ((pullProjectsList (uploadToTodoist s api).1 rl).2 ++
            (pullTasksList (pullProjectsList (uploadToTodoist s api).1 rl).1 tl).2))⟩ := by
  simp [reconcile, wantsProjects, wantsTasks, syncProjectsFromTodoist,
    syncTasksFromTodoist, decodeProjects, decodeTasks, Except.map, bind, Except.bind,
    pure, Except.pure, List.append_assoc]

/-! ## Claim theorems -/

/-- C7: the remote-to-local and local-to-remote priority maps are both the
formula `5 - p`; for every `p` in `1..4` the two compositions are the
identity and both maps send `1..4` into `1..4`. -/
theorem C7_priority_involution :
    (∀ p : Int, mapTodoistPriority p = 5 - p) ∧
    (∀ p : Int, mapToTodoistPriority p = 5 - p) ∧
    (∀ p : Int, 1 ≤ p → p ≤ 4 →
      mapTodoistPriority (mapToTodoistPriority p) = p ∧
      mapToTodoistPriority (mapTodoistPriority p) = p ∧
      1 ≤ mapTodoistPriority p ∧ mapTodoistPriority p ≤ 4 ∧
      1 ≤ mapToTodoistPriority p ∧ mapToTodoistPriority p ≤ 4) := by
  refine ⟨fun p => rfl, fun p => rfl, fun p h1 h4 => ?_⟩
  unfold mapTodoistPriority mapToTodoistPriority
  refine ⟨by omega, by omega, by omega, by omega, by omega, by omega⟩

/-- Witness for C7 at `p = 3`. -/
theorem C7_priority_involution_witness :
    (1 ≤ (3 : Int) ∧ (3 : Int) ≤ 4) ∧
    (mapTodoistPriority (mapToTodoistPriority 3) = 3 ∧
      mapToTodoistPriority (mapTodoistPriority 3) = 3 ∧
      1 ≤ mapTodoistPriority 3 ∧ mapTodoistPriority 3 ≤ 4 ∧
      1 ≤ mapToTodoistPriority 3 ∧ mapToTodoistPriority 3 ≤ 4) :=
  ⟨⟨by decide, by decide⟩, C7_priority_involution.2.2 3 (by decide) (by decide)⟩

/-- C10: a `TO_REMOTE` reconcile returns exactly the push results, whose
actions are only `uploaded` or `error`, so the summary reports
`created = 0` and `updated = 0` no matter how many uploads succeeded;
successes are visible only in `total`. -/
theorem C10_to_remote_summary (et : EntityKinds) (s : Store) (api : TodoistApi)
    (presp : ProjectsResponse) (tresp : TasksResponse) :
    ∃ out, reconcile .TO_TODOIST et s api presp tresp = Except.ok out ∧
      out.results = (uploadToTodoist s api).2 ∧
      (∀ r ∈ out.results, r.action = "uploaded" ∨ r.action = "error") ∧
      out.summary.created = 0 ∧
      out.summary.updated = 0 ∧
      out.summary.total = out.results.length ∧
      out.summary.errors = (out.results.filter fun r => r.action == "error").length := by
  have hcz : (mkSummary (uploadToTodoist s api).2).created = 0 := by
    show ((uploadToTodoist s api).2.filter fun r => r.action == "created").length = 0
    apply filter_length_zero
    intro r hr
    rcases upload_results_actions s api r hr with h | h <;> rw [h] <;> decide
  have huz : (mkSummary (uploadToTodoist s api).2).updated = 0 := by
    show ((uploadToTodoist s api).2.filter fun r => r.action == "updated").length = 0
    apply filter_length_zero
    intro r hr
    rcases upload_results_actions s api r hr with h | h <;> rw [h] <;> decide
  exact ⟨_, reconcile_to et s api presp tresp, rfl, upload_results_actions s api,
    hcz, huz, rfl, rfl⟩

/-- Witness for C10 on a store with one pending project that uploads
successfully: the summary still reports zero created and updated. -/
theorem C10_to_remote_summary_witness :
    ∃ out, reconcile .TO_TODOIST .all storeOnePending apiOk (.arr []) (.arr []) =
      Except.ok out ∧ out.summary.created = 0 ∧ out.summary.updated = 0 := by
  rcases C10_to_remote_summary .all storeOnePending apiOk (.arr []) (.arr [])
    with ⟨out, h1, _, _, h4, h5, _⟩
  exact ⟨out, h1, h4, h5⟩

/-- C6: a remote task whose remote project reference resolves to no local
project is skipped as a strict no-op (no store write, no sync-log row, no
result record), and the pass continues: the whole pull equals the pull of
the resolvable sublisting, producing one result per resolvable task. -/
theorem C6_pull_tasks_unresolved_skip :
    (∀ (acc : Store × List SyncResult) (rt : RemoteTask),
      findProjectByTodoistId acc.1 rt.projectId = none → pullTaskStep acc rt = acc) ∧
    (∀ (s : Store) (rl : List RemoteTask),
      pullTasksList s rl = pullTasksList s (rl.filter (resolvableTask s))) ∧
    (∀ (s : Store) (rl : List RemoteTask),
      (pullTasksList s rl).2.length = (rl.filter (resolvableTask s)).length) ∧
    (∀ (s : Store) (rl : List RemoteTask),
      syncTasksFromTodoist s (.arr rl) = Except.ok (pullTasksList s rl)) := by
  refine ⟨fun acc rt h => pullTaskStep_skip h, fun s rl => ?_, fun s rl => ?_,
    fun s rl => rfl⟩
  · exact pullTaskFold_filter s rl (s, []) rfl
  · have := pullTaskFold_len s rl (s, []) rfl
    simpa using this

/-- Witness for C6: an orphan remote task is skipped without any
effect. -/
theorem C6_pull_tasks_unresolved_skip_witness :
    findProjectByTodoistId storeOnePending remoteTaskOrphan.projectId = none ∧
    pullTaskStep (storeOnePending, []) remoteTaskOrphan = (storeOnePending, []) :=
  ⟨by decide,
    C6_pull_tasks_unresolved_skip.1 (storeOnePending, []) remoteTaskOrphan (by decide)⟩

/-- C5: `pullProjects` decodes a bare listing, processes every remote
project (one `created`/`updated` result each), updates the local project
found by remote id (name, `SYNCED`, `UPDATE/FROM_TODOIST` row) or creates
a fresh local project with the mapped color, the remote id and `SYNCED`
(`CREATE/FROM_TODOIST` row), and never deletes a local project absent
from the listing. -/
theorem C5_pull_projects_semantics :
    (∀ (s : Store) (rl : List RemoteProject),
      syncProjectsFromTodoist s (.arr rl) = Except.ok (pullProjectsList s rl) ∧
      (pullProjectsList s rl).2.length = rl.length ∧
      (∀ r ∈ (pullProjectsList s rl).2, r.action = "created" ∨ r.action = "updated") ∧
      (∀ p ∈ s.projects, ∃ p' ∈ (pullProjectsList s rl).1.projects, p'.id = p.id)) ∧
    (∀ (s : Store) (rs : List SyncResult) (rp : RemoteProject) (ex : Project),
      findProjectByTodoistId s rp.id = some ex →
      (pullProjectStep (s, rs) rp).2 = rs ++ [⟨"project", "updated", ex.id, none⟩] ∧
      (∃ q ∈ (pullProjectStep (s, rs) rp).1.projects,
        q.id = ex.id ∧ q.name = rp.name ∧ q.syncStatus = .SYNCED ∧
        q.todoistId = ex.todoistId ∧ q.color = ex.color) ∧
      (pullProjectStep (s, rs) rp).1.syncLog =
        s.syncLog ++ [⟨"project", ex.id, "UPDATE", "FROM_TODOIST", some rp.id, none⟩]) ∧
    (∀ (s : Store) (rs : List SyncResult) (rp : RemoteProject),
      findProjectByTodoistId s rp.id = none →
      (pullProjectStep (s, rs) rp).2 =
        rs ++ [⟨"project", "created", s.nextProjectId, none⟩] ∧
      (⟨s.nextProjectId, rp.name, mapTodoistColor rp.color, some rp.id, .SYNCED⟩ : Project) ∈
        (pullProjectStep (s, rs) rp).1.projects ∧
      (pullProjectStep (s, rs) rp).1.syncLog =
        s.syncLog ++
          [⟨"project", s.nextProjectId, "CREATE", "FROM_TODOIST", some rp.id, none⟩]) := by
  refine ⟨fun s rl => ⟨rfl, ?_, ?_, ?_⟩,
    fun s rs rp ex h => pullProjectStep_found h,
    fun s rs rp h => pullProjectStep_notFound h⟩
  · have := pullProjFold_len rl s []
    simpa [pullProjectsList] using this
  · intro r hr
    rcases pullProjFold_actions rl s [] r hr with hm | hact
    · cases hm
    · exact hact
  · intro p hp
    have hfst : (pullProjectsList s rl).1 = rl.foldl pullProjStoreStep s :=
      pullProjFold_fst rl s []
    rw [hfst]
    exact pullProjFold_pres rl s p hp

/-- Witness for C5: pulling one unseen remote project creates the local
counterpart with mapped color `teal → blue`. -/
theorem C5_pull_projects_semantics_witness :
    findProjectByTodoistId storeMixed "R9" = none ∧
    (⟨storeMixed.nextProjectId, "New", mapTodoistColor "teal", some "R9",
      .SYNCED⟩ : Project) ∈
      (pullProjectStep (storeMixed, []) ⟨"R9", "New", "teal"⟩).1.projects :=
  ⟨by decide,
    (C5_pull_projects_semantics.2.2 storeMixed [] ⟨"R9", "New", "teal"⟩ (by decide)).2.1⟩

/-- C1 (amended): push isolates per-entity failures.  The pass produces
exactly one result per pending project and per attempted task; a failing
entity ends in `ERROR` with an audit row whose `errorMessage` is set —
and whose `action` is always `UPDATE`, also when the attempt was a create
— while every successfully uploaded entity ends in `SYNCED`, and the pass
returns normally. -/
theorem C1_push_failure_isolation (s : Store) (api : TodoistApi)
    (hp : (s.projects.map Project.id).Nodup) (ht : (s.tasks.map Task.id).Nodup) :
    (uploadToTodoist s api).2 =
      (pendingProjects s).map (projResult api) ++
        (pendingTaskSnapshot (pushProjectsPhase s api).1).filterMap (taskStepResult api) ∧
    (∀ p ∈ pendingProjects s, ∀ e, projRemoteCall api p = .error e →
      getProject (uploadToTodoist s api).1 p.id = some { p with syncStatus := .ERROR } ∧
      projResult api p = ⟨"project", "error", p.id, some e⟩ ∧
      (⟨"project", p.id, "UPDATE", "TO_TODOIST", none, some e⟩ : SyncLogEntry) ∈
        (uploadToTodoist s api).1.syncLog) ∧
    (∀ p ∈ pendingProjects s, ∀ r, projRemoteCall api p = .ok r →
      (getProject (uploadToTodoist s api).1 p.id).map Project.syncStatus =
        some .SYNCED) ∧
    (∀ tp ∈ pendingTaskSnapshot (pushProjectsPhase s api).1, ∀ proj ptid e,
      tp.2 = some proj → proj.todoistId = some ptid →
      taskRemoteCall api tp.1 ptid = .error e →
      getTask (uploadToTodoist s api).1 tp.1.id =
        some { tp.1 with syncStatus := .ERROR } ∧
      taskStepResult api tp = some ⟨"task", "error", tp.1.id, some e⟩ ∧
      (⟨"task", tp.1.id, "UPDATE", "TO_TODOIST", none, some e⟩ : SyncLogEntry) ∈
        (uploadToTodoist s api).1.syncLog) ∧
    (∀ tp ∈ pendingTaskSnapshot (pushProjectsPhase s api).1, ∀ proj ptid r,
      tp.2 = some proj → proj.todoistId = some ptid →
      taskRemoteCall api tp.1 ptid = .ok r →
      (getTask (uploadToTodoist s api).1 tp.1.id).map Task.syncStatus =
        some .SYNCED) := by
  refine ⟨by rw [uploadToTodoist_eq], ?_, ?_, ?_, ?_⟩
  · intro p hp' e he
    have h1 := push_proj_final s api hp hp'
    refine ⟨?_, projResult_error he, ?_⟩
    · rw [h1.1, projAfter_error he p]
    · have := h1.2
      rw [projLogEntry_error he] at this
      exact this
  · intro p hp' r hr
    have h1 := (push_proj_final s api hp hp').1
    rw [h1]
    simp [projAfter_ok hr p]
  · intro tp htp proj ptid e hpo hpt he
    have h1 := (push_task_final s api ht htp).2.2 proj ptid hpo hpt
    refine ⟨?_, taskStepResult_error hpo hpt he, ?_⟩
    · rw [h1.1, taskAfter_error he tp.1]
    · have := h1.2
      rw [taskLogEntry_error he] at this
      exact this
  · intro tp htp proj ptid r hpo hpt hr
    have h1 := ((push_task_final s api ht htp).2.2 proj ptid hpo hpt).1
    rw [h1]
    simp [taskAfter_ok hr tp.1]

/-- Counterexample for C1 as stated: a pending project without a remote
id fails its create attempt; the audit row written has `errorMessage` set
but `action = UPDATE`, while the attempted action was a create. -/
theorem C1_error_log_action_counterexample :
    (uploadToTodoist storeOnePending apiFailAll).1.syncLog =
      [⟨"project", 1, "UPDATE", "TO_TODOIST", none, some "network error"⟩] ∧
    pOne.todoistId = none ∧
    attemptedAction pOne.todoistId = "CREATE" ∧
    ("UPDATE" : String) ≠ "CREATE" := by
  refine ⟨rfl, rfl, rfl, by decide⟩

/-- Witness for C1 on a failing pending project. -/
theorem C1_push_failure_isolation_witness :
    ((storeOnePending.projects.map Project.id).Nodup ∧
      (storeOnePending.tasks.map Task.id).Nodup ∧
      pOne ∈ pendingProjects storeOnePending ∧
      projRemoteCall apiFailAll pOne = .error "network error") ∧
    (getProject (uploadToTodoist storeOnePending apiFailAll).1 pOne.id =
      some { pOne with syncStatus := .ERROR } ∧
      projResult apiFailAll pOne = ⟨"project", "error", pOne.id, some "network error"⟩ ∧
      (⟨"project", pOne.id, "UPDATE", "TO_TODOIST", none,
        some "network error"⟩ : SyncLogEntry) ∈
        (uploadToTodoist storeOnePending apiFailAll).1.syncLog) :=
  ⟨⟨by decide, by decide, by decide, rfl⟩,
    (C1_push_failure_isolation storeOnePending apiFailAll (by decide) (by decide)).2.1
      pOne (by decide) "network error" rfl⟩

/-- C2 (amended): within one push pass every pending project is processed
before any pending task (the task snapshot is taken from the
post-project-loop store and all project results precede all task
results), and a pending task whose joined project carries no Todoist id —
the guard the code actually checks — is skipped: it yields no result
record and still holds `PENDING_UPLOAD` when the pass ends. -/
theorem C2_push_ordering_and_skip (s : Store) (api : TodoistApi)
    (ht : (s.tasks.map Task.id).Nodup) :
    uploadToTodoist s api =
      ((pushTasksPhase (pushProjectsPhase s api).1 api).1,
        (pushProjectsPhase s api).2 ++
          (pushTasksPhase (pushProjectsPhase s api).1 api).2) ∧
    (∀ r ∈ (pushProjectsPhase s api).2, r.typ = "project") ∧
    (∀ r ∈ (pushTasksPhase (pushProjectsPhase s api).1 api).2, r.typ = "task") ∧
    (∀ tp ∈ pendingTaskSnapshot (pushProjectsPhase s api).1, ∀ proj,
      tp.2 = some proj → proj.todoistId = none →
      taskStepResult api tp = none ∧
      getTask (uploadToTodoist s api).1 tp.1.id = some tp.1 ∧
      tp.1.syncStatus = .PENDING_UPLOAD) := by
  refine ⟨rfl, ?_, ?_, ?_⟩
  · intro r hr
    rw [pushProjectsPhase_eq] at hr
    rcases List.mem_map.mp hr with ⟨p, _, rfl⟩
    exact (projResult_fields api p).1
  · intro r hr
    rw [pushTasksPhase_eq] at hr
    rcases List.mem_filterMap.mp hr with ⟨tp, _, htp⟩
    exact (taskStepResult_fields htp).1
  · intro tp htp proj hpo hpt
    exact ⟨taskStepResult_skip_noTid hpo hpt,
      ((push_task_final s api ht htp).2.1 proj hpo hpt),
      (pendingTaskSnapshot_spec htp).2.1⟩

/-- Counterexample for C2 as stated: the owning project keeps a Todoist
id but ends the pass in `ERROR` (so `syncStatus != SYNCED`), yet its
pending task is attempted against the remote and ends `SYNCED` instead of
retaining `PENDING_UPLOAD`. -/
theorem C2_status_guard_counterexample :
    getProject (uploadToTodoist storeProjWithTask apiProjFail).1 1 =
      some ⟨1, "Work", "blue", some "R1", .ERROR⟩ ∧
    getTask (uploadToTodoist storeProjWithTask apiProjFail).1 1 =
      some ⟨1, "t", false, 2, "", none, 1, some "RT1", .SYNCED⟩ ∧
    (uploadToTodoist storeProjWithTask apiProjFail).2 =
      [⟨"project", "error", 1, some "boom"⟩, ⟨"task", "uploaded", 1, none⟩] := by
  refine ⟨rfl, rfl, rfl⟩

/-- Witness for C2 on a task blocked behind a project that has no Todoist
id. -/
theorem C2_push_ordering_and_skip_witness :
    ((storeTaskBlocked.tasks.map Task.id).Nodup ∧
      tpBlocked ∈ pendingTaskSnapshot (pushProjectsPhase storeTaskBlocked apiFailAll).1 ∧
      tpBlocked.2 = some ⟨1, "A", "blue", none, .ERROR⟩ ∧
      (⟨1, "A", "blue", none, .ERROR⟩ : Project).todoistId = none) ∧
    (taskStepResult apiFailAll tpBlocked = none ∧
      getTask (uploadToTodoist storeTaskBlocked apiFailAll).1 tpBlocked.1.id =
        some tpBlocked.1 ∧
      tpBlocked.1.syncStatus = .PENDING_UPLOAD) :=
  ⟨⟨by decide, by decide, rfl, rfl⟩,
    (C2_push_ordering_and_skip storeTaskBlocked apiFailAll (by decide)).2.2.2
      tpBlocked (by decide) ⟨1, "A", "blue", none, .ERROR⟩ rfl rfl⟩

/-- C4 (amended): a failed push attempt changes nothing but the entity's
`syncStatus`, which becomes `ERROR`; the entity is then excluded from the
next pass's `PENDING_UPLOAD` scan, so it is NOT retried — a further push
pass with any oracle attempts nothing for it and leaves it in `ERROR`. -/
theorem C4_error_frame_no_retry (s : Store) (api api2 : TodoistApi)
    (hp : (s.projects.map Project.id).Nodup) (ht : (s.tasks.map Task.id).Nodup) :
    (∀ p ∈ pendingProjects s, ∀ e, projRemoteCall api p = .error e →
      getProject (uploadToTodoist s api).1 p.id = some { p with syncStatus := .ERROR } ∧
      (∀ q ∈ pendingProjects (uploadToTodoist s api).1, q.id ≠ p.id) ∧
      getProject (uploadToTodoist (uploadToTodoist s api).1 api2).1 p.id =
        some { p with syncStatus := .ERROR } ∧
      (∀ r ∈ (uploadToTodoist (uploadToTodoist s api).1 api2).2,
        ¬(r.typ = "project" ∧ r.entityId = p.id))) ∧
    (∀ tp ∈ pendingTaskSnapshot (pushProjectsPhase s api).1, ∀ proj ptid e,
      tp.2 = some proj → proj.todoistId = some ptid →
      taskRemoteCall api tp.1 ptid = .error e →
      getTask (uploadToTodoist s api).1 tp.1.id =
        some { tp.1 with syncStatus := .ERROR } ∧
      (∀ tq ∈ pendingTaskSnapshot (uploadToTodoist s api).1, tq.1.id ≠ tp.1.id) ∧
      getTask (uploadToTodoist (uploadToTodoist s api).1 api2).1 tp.1.id =
        some { tp.1 with syncStatus := .ERROR }) := by
  constructor
  · intro p hp' e he
    have hA : getProject (uploadToTodoist s api).1 p.id =
        some { p with syncStatus := .ERROR } := by
      rw [(push_proj_final s api hp hp').1, projAfter_error he p]
    have hnd' : ((uploadToTodoist s api).1.projects.map Project.id).Nodup := by
      rw [upload_projIds]
      exact hp
    have hv : ({ p with syncStatus := .ERROR } : Project).syncStatus ≠
        .PENDING_UPLOAD := by simp
    have hexcl := not_pending_of_getProject hnd' hA hv
    exact ⟨hA, hexcl, push_untouched_project (uploadToTodoist s api).1 api2 hnd' hA hv,
      push_no_project_result (uploadToTodoist s api).1 api2 hexcl⟩
  · intro tp htp proj ptid e hpo hpt he
    have hA : getTask (uploadToTodoist s api).1 tp.1.id =
        some { tp.1 with syncStatus := .ERROR } := by
      rw [((push_task_final s api ht htp).2.2 proj ptid hpo hpt).1,
        taskAfter_error he tp.1]
    have hnd' : ((uploadToTodoist s api).1.tasks.map Task.id).Nodup := by
      rw [upload_taskIds]
      exact ht
    have hv : ({ tp.1 with syncStatus := .ERROR } : Task).syncStatus ≠
        .PENDING_UPLOAD := by simp
    exact ⟨hA, not_pending_task_of_getTask hnd' hA hv,
      push_untouched_task (uploadToTodoist s api).1 api2 hnd' hA hv⟩

/-- Counterexample for C4's retry clause as stated: after the failed pass
the entity is in `ERROR`; the next push pass — even against a remote that
would now succeed — produces no results at all and leaves it in `ERROR`,
so the entity is not retried. -/
theorem C4_no_retry_counterexample :
    getProject (uploadToTodoist storeOnePending apiFailAll).1 1 =
      some ⟨1, "Inbox", "blue", none, .ERROR⟩ ∧
    (uploadToTodoist (uploadToTodoist storeOnePending apiFailAll).1 apiOk).2 = [] ∧
    getProject (uploadToTodoist (uploadToTodoist storeOnePending apiFailAll).1 apiOk).1 1 =
      some ⟨1, "Inbox", "blue", none, .ERROR⟩ := by
  refine ⟨rfl, rfl, rfl⟩

/-- Witness for C4 on a failing pending project followed by a second pass
with a succeeding oracle. -/
theorem C4_error_frame_no_retry_witness :
    ((storeOnePending.projects.map Project.id).Nodup ∧
      (storeOnePending.tasks.map Task.id).Nodup ∧
      pOne ∈ pendingProjects storeOnePending ∧
      projRemoteCall apiFailAll pOne = .error "network error") ∧
    (getProject (uploadToTodoist storeOnePending apiFailAll).1 pOne.id =
      some { pOne with syncStatus := .ERROR } ∧
      getProject (uploadToTodoist (uploadToTodoist storeOnePending apiFailAll).1 apiOk).1
        pOne.id = some { pOne with syncStatus := .ERROR }) := by
  have h := (C4_error_frame_no_retry storeOnePending apiFailAll apiOk
    (by decide) (by decide)).1 pOne (by decide) "network error" rfl
  exact ⟨⟨by decide, by decide, by decide, rfl⟩, h.1, h.2.2.1⟩

/-- C3: a `BIDIRECTIONAL` reconcile runs the full push first, then
`pullProjects`, then `pullTasks` (the same pull sequence as
`FROM_REMOTE`), with the results concatenated in that order; hence a
locally created pending project with no remote id whose create call
succeeds, and which the remote listing does not yet contain, ends the
pass with that remote id and `SYNCED`, untouched by the pull phase. -/
theorem C3_bidirectional_ordering (s : Store) (api : TodoistApi)
    (rl : List RemoteProject) (tl : List RemoteTask)
    (hnd : (s.projects.map Project.id).Nodup)
    (hbound : ∀ q ∈ s.projects, q.id < s.nextProjectId)
    (p : Project) (hmem : p ∈ s.projects) (hpend : p.syncStatus = .PENDING_UPLOAD)
    (hnew : p.todoistId = none) (rid : String)
    (hadd : api.addProject p.name = .ok rid)
    (hfresh : ∀ rp ∈ rl, rp.id ≠ rid) :
    ∃ out, reconcile .BIDIRECTIONAL .all s api (.arr rl) (.arr tl) = Except.ok out ∧
      out.results = (uploadToTodoist s api).2 ++
        ((pullProjectsList (uploadToTodoist s api).1 rl).2 ++
          (pullTasksList (pullProjectsList (uploadToTodoist s api).1 rl).1 tl).2) ∧
      out.store =
        (pullTasksList (pullProjectsList (uploadToTodoist s api).1 rl).1 tl).1 ∧
      getProject out.store p.id =
        some { p with todoistId := some rid, syncStatus := .SYNCED } := by
  refine ⟨_, reconcile_bid_all s api rl tl, rfl, rfl, ?_⟩
  have hp' : p ∈ pendingProjects s :=
    List.mem_filter.mpr ⟨hmem, by simp [hpend]⟩
  have hcall : projRemoteCall api p = .ok (some rid) := by
    simp [projRemoteCall, hnew, hadd, Except.map]
  have hafter : projAfter api p p =
      { p with todoistId := some rid, syncStatus := .SYNCED } := by
    simp [projAfter, hcall]
  have hpush : getProject (uploadToTodoist s api).1 p.id =
      some { p with todoistId := some rid, syncStatus := .SYNCED } := by
    rw [(push_proj_final s api hnd hp').1, hafter]
  have hnd1 : ((uploadToTodoist s api).1.projects.map Project.id).Nodup := by
    rw [upload_projIds]
    exact hnd
  have hbound1 : ∀ q ∈ (uploadToTodoist s api).1.projects,
      q.id < (uploadToTodoist s api).1.nextProjectId := by
    intro q hq
    have hidmem : q.id ∈ (uploadToTodoist s api).1.projects.map Project.id :=
      List.mem_map_of_mem Project.id hq
    rw [upload_projIds] at hidmem
    rcases List.mem_map.mp hidmem with ⟨q₀, hq₀, hid⟩
    rw [upload_nextProjectId, ← hid]
    exact hbound q₀ hq₀
  have hfold : (pullProjectsList (uploadToTodoist s api).1 rl).1 =
      rl.foldl pullProjStoreStep (uploadToTodoist s api).1 :=
    pullProjFold_fst rl (uploadToTodoist s api).1 []
  have hpullP : getProject (pullProjectsList (uploadToTodoist s api).1 rl).1 p.id =
      some { p with todoistId := some rid, syncStatus := .SYNCED } := by
    rw [hfold]
    exact pullProjFold_frame rid p.id
      { p with todoistId := some rid, syncStatus := .SYNCED } rfl rl
      (uploadToTodoist s api).1 hnd1 hbound1 hpush hfresh
  have hprojEq : (pullTasksList (pullProjectsList (uploadToTodoist s api).1 rl).1 tl).1.projects =
      (pullProjectsList (uploadToTodoist s api).1 rl).1.projects :=
    pullTaskFold_projects tl _
  rw [getProject_eq_of_projects hprojEq p.id]
  exact hpullP

/-- Witness for C3: one locally created pending project, empty remote
listings. -/
theorem C3_bidirectional_ordering_witness :
    ((storeOnePending.projects.map Project.id).Nodup ∧
      (∀ q ∈ storeOnePending.projects, q.id < storeOnePending.nextProjectId) ∧
      pOne ∈ storeOnePending.projects ∧ pOne.syncStatus = .PENDING_UPLOAD ∧
      pOne.todoistId = none ∧ apiOk.addProject pOne.name = .ok "R1") ∧
    (∃ out, reconcile .BIDIRECTIONAL .all storeOnePending apiOk (.arr []) (.arr []) =
      Except.ok out ∧
      getProject out.store pOne.id =
        some { pOne with todoistId := some "R1", syncStatus := .SYNCED }) := by
  have h := C3_bidirectional_ordering storeOnePending apiOk [] []
    (by decide) (by decide) pOne (by decide) rfl rfl "R1" rfl (by simp)
  rcases h with ⟨out, h1, _, _, h4⟩
  exact ⟨⟨by decide, by decide, by decide, rfl, rfl, rfl⟩, out, h1, h4⟩

/-- C8 (amended): the create, update and toggle handlers on both entity
kinds and the Task delete handler invoke the change trigger after a
successful store write (whenever the WebSocket service is available), but
the Project delete handler never does; the trigger is a strict no-op with
no connected clients and otherwise launches exactly one push-then-pull
pass whose event is broadcast. -/
theorem C8_change_trigger_coverage (s : Store) (ws : Bool) :
    (∀ nameArg colorArg, (projectCreateHandler s ws nameArg colorArg).triggered = ws ∧
      (projectCreateHandler s ws nameArg colorArg).statusCode = 200) ∧
    (∀ i nameArg colorArg tidArg q, getProject s i = some q →
      (projectUpdateHandler s ws i nameArg colorArg tidArg).triggered = ws ∧
      (projectUpdateHandler s ws i nameArg colorArg tidArg).statusCode = 200) ∧
    (∀ i q, getProject s i = some q →
      (projectDeleteHandler s ws i).triggered = false ∧
      (projectDeleteHandler s ws i).statusCode = 200) ∧
    (∀ textArg projArg prioArg notesArg dueArg q, getProject s projArg = some q →
      (taskCreateHandler s ws textArg projArg prioArg notesArg dueArg).triggered = ws) ∧
    (∀ i textArg completedArg prioArg notesArg dueArg q, getTask s i = some q →
      (taskUpdateHandler s ws i textArg completedArg prioArg notesArg
        dueArg).triggered = ws) ∧
    (∀ i q, getTask s i = some q → (taskToggleHandler s ws i).triggered = ws) ∧
    (∀ i q, getTask s i = some q → (taskDeleteHandler s ws i).triggered = ws) ∧
    (∀ api presp tresp ts, triggerSyncOnChange [] s api presp tresp ts = (s, [])) ∧
    (∀ c clients api presp tresp ts,
      triggerSyncOnChange (c :: clients) s api presp tresp ts =
        ((startAutoSync s api presp tresp ts).1,
          broadcast (c :: clients) (startAutoSync s api presp tresp ts).2)) := by
  refine ⟨fun nameArg colorArg => ⟨rfl, rfl⟩, ?_, ?_, ?_, ?_, ?_, ?_,
    fun api presp tresp ts => by simp [triggerSyncOnChange],
    fun c clients api presp tresp ts => by simp [triggerSyncOnChange]⟩
  · intro i nameArg colorArg tidArg q h
    simp [projectUpdateHandler, h]
  · intro i q h
    simp [projectDeleteHandler, h]
  · intro textArg projArg prioArg notesArg dueArg q h
    simp [taskCreateHandler, h]
  · intro i textArg completedArg prioArg notesArg dueArg q h
    simp [taskUpdateHandler, h]
  · intro i q h
    simp [taskToggleHandler, h]
  · intro i q h
    simp [taskDeleteHandler, h]

/-- Counterexample for C8 as stated: deleting an existing project
succeeds (HTTP 200) with the WebSocket service available, yet the trigger
is not invoked — while the Task delete handler does invoke it. -/
theorem C8_project_delete_counterexample :
    (projectDeleteHandler storeOnePending true 1).statusCode = 200 ∧
    (projectDeleteHandler storeOnePending true 1).triggered = false ∧
    (taskDeleteHandler storeTaskBlocked true 7).triggered = true := by
  refine ⟨rfl, rfl, rfl⟩

/-- Witness for C8 on a store holding one project. -/
theorem C8_change_trigger_coverage_witness :
    getProject storeOnePending 1 = some pOne ∧
    ((projectDeleteHandler storeOnePending true 1).triggered = false ∧
      (projectDeleteHandler storeOnePending true 1).statusCode = 200) :=
  ⟨by decide,
    (C8_change_trigger_coverage storeOnePending true).2.2.1 1 pOne (by decide)⟩

/-- C9 (amended): a triggered pass broadcasts its event to every
currently-connected open listener; on success the event is a structured
completion carrying the timestamp and the summary
`{total, uploaded, downloaded, errors}` — `uploaded` counts all push
result records (including failed ones) and `downloaded` all pull records;
no field reports the created-or-uploaded success count — and on any pull
decode failure a structured error event with the message and timestamp is
broadcast instead; no exception crosses the trigger boundary. -/
theorem C9_broadcast_contract (s : Store) (api : TodoistApi) (presp : ProjectsResponse)
    (tresp : TasksResponse) (ts : String) (clients : List Client) :
    broadcast clients (startAutoSync s api presp tresp ts).2 =
      (clients.filter fun c => c.isOpen).map
        (fun c => (c.id, (startAutoSync s api presp tresp ts).2)) ∧
    ((∃ rl tl, decodeProjects presp = .ok rl ∧ decodeTasks tresp = .ok tl ∧
        (startAutoSync s api presp tresp ts).2 =
          .autoCompleted
            ((uploadToTodoist s api).2 ++
              (pullProjectsList (uploadToTodoist s api).1 rl).2 ++
              (pullTasksList (pullProjectsList (uploadToTodoist s api).1 rl).1 tl).2)
            ⟨((uploadToTodoist s api).2 ++
                (pullProjectsList (uploadToTodoist s api).1 rl).2 ++
                (pullTasksList (pullProjectsList (uploadToTodoist s api).1 rl).1 tl).2).length,
              (uploadToTodoist s api).2.length,
              (pullProjectsList (uploadToTodoist s api).1 rl).2.length +
                (pullTasksList (pullProjectsList (uploadToTodoist s api).1 rl).1 tl).2.length,
              errorCount
                ((uploadToTodoist s api).2 ++
                  (pullProjectsList (uploadToTodoist s api).1 rl).2 ++
                  (pullTasksList (pullProjectsList (uploadToTodoist s api).1 rl).1 tl).2)⟩
            ts) ∨
      (∃ m, (startAutoSync s api presp tresp ts).2 = .autoError m ts)) := by
  refine ⟨rfl, ?_⟩
  rcases hd : decodeProjects presp with e | rl
  · right
    exact ⟨e, by simp [startAutoSync, syncProjectsFromTodoist, hd, Except.map]⟩
  · rcases hdt : decodeTasks tresp with e | tl
    · right
      exact ⟨e, by
        simp [startAutoSync, syncProjectsFromTodoist, syncTasksFromTodoist,
          hd, hdt, Except.map]⟩
    · left
      exact ⟨rl, tl, rfl, rfl, by
        simp [startAutoSync, syncProjectsFromTodoist, syncTasksFromTodoist,
          hd, hdt, Except.map]⟩

/-- Counterexample for C9's spec-shaped summary: a pass whose only work
is one failed project upload broadcasts a completion summary
`{total := 1, uploaded := 1, downloaded := 0, errors := 1}`, while the
spec shape `{total, createdOrUploaded, errors}` for those same results is
`{1, 0, 1}` — the event reports `uploaded = 1` although zero entities
were created or uploaded successfully. -/
theorem C9_summary_shape_counterexample :
    (startAutoSync storeOnePending apiFailAll (.arr []) (.arr []) "T0").2 =
      .autoCompleted [⟨"project", "error", 1, some "network error"⟩]
        ⟨1, 1, 0, 1⟩ "T0" ∧
    specAutoSummaryOf [⟨"project", "error", 1, some "network error"⟩] = ⟨1, 0, 1⟩ ∧
    (1 : Nat) ≠ 0 := by
  refine ⟨rfl, rfl, by decide⟩

end TuiDoist
